import Mathlib

/-!
Verification development for the TransformAR transformation-plan engine
(`src/nlp/apply_plan.py`, `src/nlp/runtime.py`, `src/nlp/ops/builtins.py`,
`src/nlp/instruction_qwen.py`, `src/input/currency_converter.py`).

Documents are arbitrary JSON-like trees (Python dicts/lists/scalars).  Python
dicts preserve insertion order, so objects are modelled as ordered association
lists.  Python numbers (int/float) are modelled as exact fractions (`PyNum`);
the claims under study are control-flow claims, not floating-point rounding
claims.

The tree type is defined as a mutual inductive (instead of nesting `List`)
so that every function on documents is structural and therefore computable
by kernel reduction (`rfl` / `decide`).
-/

/-- Exact fraction model of a Python number.  Kept unnormalized so that all
arithmetic is kernel-reducible (no gcd).  Every constructed value has a
positive denominator. -/
structure PyNum where
  num : ℤ
  den : ℕ
  deriving DecidableEq, Repr

namespace PyNum

/-- Embed an integer. -/
def ofInt (n : ℤ) : PyNum := ⟨n, 1⟩

instance : OfNat PyNum n := ⟨⟨n, 1⟩⟩

/-- Exact addition. -/
def add (a b : PyNum) : PyNum := ⟨a.num * b.den + b.num * a.den, a.den * b.den⟩

/-- Exact subtraction. -/
def sub (a b : PyNum) : PyNum := ⟨a.num * b.den - b.num * a.den, a.den * b.den⟩

/-- Exact multiplication. -/
def mul (a b : PyNum) : PyNum := ⟨a.num * b.num, a.den * b.den⟩

/-- Exact reciprocal (undefined input 0 maps to denominator 0; the Python
counterpart would raise `ZeroDivisionError`, which no claim exercises). -/
def inv (b : PyNum) : PyNum :=
  if b.num < 0 then ⟨-(b.den : ℤ), b.num.natAbs⟩ else ⟨(b.den : ℤ), b.num.natAbs⟩

/-- Exact division. -/
def div (a b : PyNum) : PyNum := a.mul b.inv

/-- Numeric order (denominators are positive in every constructed value). -/
def lt (a b : PyNum) : Bool := a.num * b.den < b.num * a.den

/-- Numeric order. -/
def le (a b : PyNum) : Bool := a.num * b.den ≤ b.num * a.den

/-- Numeric equality (cross-multiplication). -/
def numEq (a b : PyNum) : Bool := a.num * b.den = b.num * a.den

/-- Test against zero (Python truthiness of a number). -/
def isZero (a : PyNum) : Bool := a.num = 0

/-- Mathematical floor (`Int.fdiv` is floor division). -/
def floor (a : PyNum) : ℤ := Int.fdiv a.num a.den

/-- Negation. -/
def neg (a : PyNum) : PyNum := ⟨-a.num, a.den⟩

/-- Absolute value. -/
def abs (a : PyNum) : PyNum := ⟨a.num.natAbs, a.den⟩

end PyNum

mutual

/-- JSON-like document tree, as produced by `json.loads` in the source. -/
inductive Json where
  | null : Json
  | bool (b : Bool) : Json
  | num (q : PyNum) : Json
  | str (s : String) : Json
  | arr (xs : JsonList) : Json
  | obj (fs : JsonFields) : Json

/-- List of JSON values (a Python list). -/
inductive JsonList where
  | nil : JsonList
  | cons (hd : Json) (tl : JsonList) : JsonList

/-- Ordered fields of a JSON object (a Python dict, in insertion order). -/
inductive JsonFields where
  | nil : JsonFields
  | cons (k : String) (v : Json) (tl : JsonFields) : JsonFields

end

namespace JsonFields

/-- Python `d.get(k)` / `d[k]`: value of the first binding of `k`. -/
def lookup (k : String) : JsonFields → Option Json
  | .nil => none
  | .cons k' v tl => if k' = k then some v else lookup k tl

/-- Python `k in d`. -/
def hasKey (fs : JsonFields) (k : String) : Bool :=
  (fs.lookup k).isSome

/-- Python `d.pop(k)`: remove the binding of `k` (dict keys are unique, so
removing the first binding models `pop`). -/
def erase (k : String) : JsonFields → JsonFields
  | .nil => .nil
  | .cons k' v tl => if k' = k then tl else .cons k' v (erase k tl)

/-- Python `d[k] = v`: update the binding in place if `k` is present,
append it otherwise (dict insertion order). -/
def set (k : String) (v : Json) : JsonFields → JsonFields
  | .nil => .cons k v .nil
  | .cons k' v' tl => if k' = k then .cons k' v tl else .cons k' v' (set k v tl)

/-- Keys of the object, in order (`list(d.keys())`). -/
def keys : JsonFields → List String
  | .nil => []
  | .cons k _ tl => k :: keys tl

end JsonFields

namespace JsonList

/-- Convert to an ordinary Lean list (used at the batch boundary). -/
def toList : JsonList → List Json
  | .nil => []
  | .cons x xs => x :: toList xs

/-- Build from an ordinary Lean list. -/
def ofList : List Json → JsonList
  | [] => .nil
  | x :: xs => .cons x (ofList xs)

end JsonList

/-- Build an object from a Lean list of fields (notation convenience;
computes by `rfl`). -/
def Json.mkObj (l : List (String × Json)) : Json :=
  Json.obj (l.foldr (fun p acc => JsonFields.cons p.1 p.2 acc) JsonFields.nil)

/-- Build an array from a Lean list (notation convenience). -/
def Json.mkArr (l : List Json) : Json :=
  Json.arr (JsonList.ofList l)

/-- Python truthiness of a JSON value (`bool(x)`). -/
def Json.truthy : Json → Bool
  | .null => false
  | .bool b => b
  | .num q => ¬ q.isZero
  | .str s => s ≠ ""
  | .arr .nil => false
  | .arr _ => true
  | .obj .nil => false
  | .obj _ => true

example : Json.truthy (.str "") = false := by decide
example : (Json.mkObj [("a", .num 1)]) = .obj (.cons "a" (.num 1) .nil) := rfl

/-! ## Python string primitives

Character-level models of the Python string operations the source relies on.
Unicode NFD decomposition is modelled by a table covering the precomposed
Latin letters that occur in the repository's Spanish/English data; all other
characters are their own decomposition.
-/

namespace Py

/-- Python whitespace as used by `str.strip()`. -/
def isPySpace (c : Char) : Bool :=
  c = ' ' ∨ c = '\t' ∨ c = '\n' ∨ c = '\r' ∨ c = Char.ofNat 11 ∨ c = Char.ofNat 12

/-- ASCII digit test (`\d` for the inputs in scope). -/
def isDigitCh (c : Char) : Bool := '0' ≤ c ∧ c ≤ '9'

/-- Python `str.lower()` restricted to ASCII plus the Latin-1 accented
letters used by the repository. -/
def pyLowerChar (c : Char) : Char :=
  if 'A' ≤ c ∧ c ≤ 'Z' then Char.ofNat (c.toNat + 32)
  else match c with
  | 'Á' => 'á' | 'É' => 'é' | 'Í' => 'í' | 'Ó' => 'ó' | 'Ú' => 'ú'
  | 'À' => 'à' | 'È' => 'è' | 'Ì' => 'ì' | 'Ò' => 'ò' | 'Ù' => 'ù'
  | 'Ä' => 'ä' | 'Ë' => 'ë' | 'Ï' => 'ï' | 'Ö' => 'ö' | 'Ü' => 'ü'
  | 'Â' => 'â' | 'Ê' => 'ê' | 'Î' => 'î' | 'Ô' => 'ô' | 'Û' => 'û'
  | 'Ñ' => 'ñ' | 'Ç' => 'ç' | _ => c

/-- Unicode NFD followed by dropping combining marks (category Mn), as in
`unicodedata.normalize("NFD", s)` filtered on `category(c) != "Mn"`:
each precomposed Latin letter is replaced by its base letter. -/
def nfdStripMn (c : Char) : Char :=
  match c with
  | 'á' => 'a' | 'é' => 'e' | 'í' => 'i' | 'ó' => 'o' | 'ú' => 'u'
  | 'à' => 'a' | 'è' => 'e' | 'ì' => 'i' | 'ò' => 'o' | 'ù' => 'u'
  | 'ä' => 'a' | 'ë' => 'e' | 'ï' => 'i' | 'ö' => 'o' | 'ü' => 'u'
  | 'â' => 'a' | 'ê' => 'e' | 'î' => 'i' | 'ô' => 'o' | 'û' => 'u'
  | 'ñ' => 'n' | 'ç' => 'c'
  | 'Á' => 'A' | 'É' => 'E' | 'Í' => 'I' | 'Ó' => 'O' | 'Ú' => 'U'
  | 'À' => 'A' | 'È' => 'E' | 'Ì' => 'I' | 'Ò' => 'O' | 'Ù' => 'U'
  | 'Ä' => 'A' | 'Ë' => 'E' | 'Ï' => 'I' | 'Ö' => 'O' | 'Ü' => 'U'
  | 'Â' => 'A' | 'Ê' => 'E' | 'Î' => 'I' | 'Ô' => 'O' | 'Û' => 'U'
  | 'Ñ' => 'N' | 'Ç' => 'C' | _ => c

/-- Python `str.strip()` on a character list. -/
def pyStripL (l : List Char) : List Char :=
  ((l.dropWhile isPySpace).reverse.dropWhile isPySpace).reverse

/-- Python `str.strip()`. -/
def strip (s : String) : String := ⟨pyStripL s.data⟩

/-- Python `str.lower()`. -/
def lower (s : String) : String := ⟨s.data.map pyLowerChar⟩

/-- Prefix test on character lists. -/
def isPrefixL : List Char → List Char → Bool
  | [], _ => true
  | _ :: _, [] => false
  | c :: cs, d :: ds => c = d ∧ isPrefixL cs ds

/-- Python `needle in hay` substring test. -/
def containsL (needle : List Char) : List Char → Bool
  | [] => isPrefixL needle []
  | d :: ds => isPrefixL needle (d :: ds) ∨ containsL needle ds

/-- Python `hay.find(c)` for a single character: index of first occurrence. -/
def findIdx (c : Char) : List Char → Option Nat
  | [] => none
  | d :: ds => if d = c then some 0 else (findIdx c ds).map (· + 1)

/-- Python `s.replace(a, b)` for single characters. -/
def replaceCh (a b : Char) (l : List Char) : List Char :=
  l.map (fun c => if c = a then b else c)

/-- Python `s.replace(a, "")` for a single-character `a`. -/
def dropCh (a : Char) (l : List Char) : List Char :=
  l.filter (fun c => c ≠ a)

/-- Fuel-driven digit accumulator (structural, so the kernel can reduce it). -/
def natDigitsGo : Nat → Nat → List Char → List Char
  | 0, _, acc => acc
  | fuel + 1, n, acc =>
    let acc' := Char.ofNat ('0'.toNat + n % 10) :: acc
    if n < 10 then acc' else natDigitsGo fuel (n / 10) acc'

/-- Decimal digits of a natural number, most significant first. -/
def natDigits (n : Nat) : List Char := natDigitsGo (n + 1) n []

/-- Decimal rendering of a natural number. -/
def natRepr (n : Nat) : String := ⟨natDigits n⟩

/-- Decimal digits of `n` left-padded with zeros to width `w`. -/
def natPad (w n : Nat) : List Char :=
  let d := natDigits n
  List.replicate (w - d.length) '0' ++ d

/-- Fuel-driven Euclidean gcd (structural, kernel-reducible). -/
def gcdFuel : Nat → Nat → Nat → Nat
  | 0, a, _ => a
  | fuel + 1, a, b => if b = 0 then a else gcdFuel fuel b (a % b)

/-- Greatest common divisor (enough fuel for any pair). -/
def pgcd (a b : Nat) : Nat := gcdFuel (a + b + 1) a b

end Py

example : Py.pgcd 12 18 = 6 := by decide
example : Py.natPad 2 5 = ['0', '5'] := by decide

/-! ## Python `str()` / `float()` / `"%.2f"` models -/

namespace Py

/-- Smallest `k ≤ fuel` with `d ∣ 10^k` (for exact decimal rendering). -/
def find10 : Nat → Nat → Nat → Option Nat
  | 0, _, _ => none
  | fuel + 1, d, k => if 10 ^ k % d = 0 then some k else find10 fuel d (k + 1)

/-- Python number rendering.  Integral values render as integers (JSON
integers); decimal fractions render exactly; fidelity for other rationals is
not required by any document in scope. -/
def qRepr (q : PyNum) : String :=
  let sign := if q.num < 0 then "-" else ""
  let g := pgcd q.num.natAbs q.den
  let n := q.num.natAbs / g
  let d := q.den / g
  if d = 1 then sign ++ natRepr n
  else
    match find10 40 d 0 with
    | some k =>
      let scaled := n * (10 ^ k / d)
      sign ++ natRepr (scaled / 10 ^ k) ++ "." ++ ⟨natPad k (scaled % 10 ^ k)⟩
    | none => sign ++ natRepr n ++ "/" ++ natRepr d

mutual

/-- Python `repr()` of a JSON value (string escaping not modelled). -/
def pyRepr : Json → String
  | .null => "None"
  | .bool true => "True"
  | .bool false => "False"
  | .num q => qRepr q
  | .str s => "'" ++ s ++ "'"
  | .arr xs => "[" ++ pyReprList xs ++ "]"
  | .obj fs => "\x7b" ++ pyReprFields fs ++ "\x7d"

/-- Comma-separated `repr`s of list elements. -/
def pyReprList : JsonList → String
  | .nil => ""
  | .cons x .nil => pyRepr x
  | .cons x xs => pyRepr x ++ ", " ++ pyReprList xs

/-- Comma-separated `repr`s of dict items. -/
def pyReprFields : JsonFields → String
  | .nil => ""
  | .cons k v .nil => "'" ++ k ++ "': " ++ pyRepr v
  | .cons k v fs => "'" ++ k ++ "': " ++ pyRepr v ++ ", " ++ pyReprFields fs

end

/-- Python `str()` of a JSON value. -/
def pyStr : Json → String
  | .str s => s
  | j => pyRepr j

/-- Numeric value of a run of decimal digit characters. -/
def digitsVal (l : List Char) : Nat :=
  l.foldl (fun a c => a * 10 + (c.toNat - '0'.toNat)) 0

/-- Python `float()` on the cleaned strings produced by the number parsers:
optional leading minus, then digits with at most one decimal point and at
least one digit.  (Exponents/whitespace never survive the regex cleanup.) -/
def pyFloat (l : List Char) : Option PyNum :=
  let (neg, l') := match l with
    | '-' :: rest => (true, rest)
    | _ => (false, l)
  let ip := l'.takeWhile isDigitCh
  let rest := l'.drop ip.length
  let val? : Option PyNum :=
    match rest with
    | [] => if ip = [] then none else some ⟨digitsVal ip, 1⟩
    | '.' :: fp =>
      if fp.all isDigitCh ∧ (ip ≠ [] ∨ fp ≠ []) then
        some ⟨digitsVal ip * 10 ^ fp.length + digitsVal fp, 10 ^ fp.length⟩
      else none
    | _ => none
  val?.map (fun v => if neg then v.neg else v)

/-- Round to the nearest integer, ties to even (the rounding of Python's
fixed-point float formatting). -/
def halfEven (q : PyNum) : ℤ :=
  let f := q.floor
  let r := q.sub (PyNum.ofInt f)
  if r.lt ⟨1, 2⟩ then f
  else if PyNum.lt ⟨1, 2⟩ r then f + 1
  else if f % 2 = 0 then f else f + 1

/-- Python `f"{x:.2f}"`. -/
def formatF2 (x : PyNum) : String :=
  let sign := if x.num < 0 then "-" else ""
  let n := (halfEven (x.abs.mul 100)).toNat
  sign ++ natRepr (n / 100) ++ "." ++ ⟨natPad 2 (n % 100)⟩

end Py

namespace Runtime

open Py

/-- Text normalization `norm` (`nlp/runtime.py`): `"" if s is None else
str(s)`, stripped. -/
def norm (s : Json) : String :=
  match s with
  | .null => ""
  | v => strip (pyStr v)

/-- Normalization used for flexible key matching (`nkey` in
`nlp/runtime.py`): NFD-decompose, drop combining marks, lowercase, strip. -/
def nkey (s : String) : String :=
  ⟨Py.pyStripL ((s.data.map Py.nfdStripMn).map Py.pyLowerChar)⟩

/-- Locale-aware number parsing `parse_number` (`nlp/runtime.py`): strip,
drop every character except digits/commas/periods/minus, disambiguate comma
vs period by position, then `float()`. -/
def parse_number (value : Json) : Option PyNum :=
  match value with
  | .null => none
  | v =>
    let s := strip (pyStr v)
    if s = "" then none
    else
      let vc := s.data.filter (fun c => isDigitCh c ∨ c = ',' ∨ c = '.' ∨ c = '-')
      let hasC := vc.contains ','
      let hasD := vc.contains '.'
      let vc2 :=
        if hasC ∧ hasD then
          if (findIdx ',' vc).getD 0 > (findIdx '.' vc).getD 0 then
            replaceCh ',' '.' (dropCh '.' vc)
          else dropCh ',' vc
        else if hasC then replaceCh ',' '.' vc
        else vc
      pyFloat vc2

end Runtime

namespace ApplyPlan

open Py

/-- Text normalization `_norm` (`nlp/apply_plan.py`), same as `Runtime.norm`. -/
def _norm (s : Json) : String := Runtime.norm s

/-- Key normalization `_nkey` (`nlp/apply_plan.py`), same function as
`nkey` in `nlp/runtime.py`. -/
def _nkey (s : String) : String := Runtime.nkey s

/-- Number parsing `_parse_number` (`nlp/apply_plan.py`).  Unlike
`Runtime.parse_number` it disambiguates comma/period on the raw string and
only afterwards strips the remaining non-numeric characters. -/
def _parse_number (value : Json) : Option PyNum :=
  match value with
  | .null => none
  | v =>
    let s := strip (pyStr v)
    if s = "" then none
    else
      let l := s.data
      let hasC := l.contains ','
      let hasD := l.contains '.'
      let l2 :=
        if hasC ∧ hasD then
          if (findIdx ',' l).getD 0 > (findIdx '.' l).getD 0 then
            replaceCh ',' '.' (dropCh '.' l)
          else dropCh ',' l
        else if hasC then replaceCh ',' '.' l
        else l
      let l3 := l2.filter (fun c => isDigitCh c ∨ c = '.' ∨ c = '-')
      pyFloat l3

end ApplyPlan

example : Runtime.nkey "Descripción" = "descripcion" := by decide
example : Runtime.parse_number (.str "150") = some ⟨150, 1⟩ := by decide
example : Runtime.parse_number (.str "$ 1.234,56") = some ⟨123456, 100⟩ := by decide
example : ApplyPlan._parse_number (.str "1,5") = some ⟨15, 10⟩ := by decide
example : ApplyPlan._parse_number (.null) = none := by decide
example : Py.formatF2 100 = "100.00" := by decide
example : Py.formatF2 ⟨-1, 400⟩ = "-0.00" := by decide
example : Py.pyStr (.num ⟨5, 2⟩) = "2.5" := by decide
example : Py.pyStr (.num ⟨10, 4⟩) = "2.5" := by decide

/-! ## Date engine

Model of `datetime.strptime` / `strftime` restricted to the directives the
source uses (`%Y %y %m %d %B %b`, literals, whitespace).  `strptime` follows
CPython's `TimeRE` regexes: `%Y` is exactly four digits, `%y` exactly two,
`%d`/`%m` follow the one-or-two-digit alternations, matching is
case-insensitive and must consume the whole input; directive alternatives
backtrack in regex order.  A format with consecutive whitespace patterns
(which none of the source's formats have) is outside the model.  An
unsupported directive makes the parse fail, which is observationally the
raised-and-caught `ValueError` of the source.
-/

namespace Py

/-- Gregorian leap year. -/
def isLeap (y : ℕ) : Bool := y % 4 = 0 ∧ (y % 100 ≠ 0 ∨ y % 400 = 0)

/-- Days in a month. -/
def daysInMonth (y m : ℕ) : ℕ :=
  if m = 2 then (if isLeap y then 29 else 28)
  else if m = 4 ∨ m = 6 ∨ m = 9 ∨ m = 11 then 30
  else 31

/-- The dates `datetime(y, m, d)` accepts. -/
def validDate (y m d : ℕ) : Bool :=
  1 ≤ y ∧ y ≤ 9999 ∧ 1 ≤ m ∧ m ≤ 12 ∧ 1 ≤ d ∧ d ≤ daysInMonth y m

/-- A constructed `datetime.date`. -/
structure PyDate where
  year : ℕ
  month : ℕ
  day : ℕ
  deriving DecidableEq, Repr

/-- The `datetime(y, m, d)` constructor (`none` models the raised
`ValueError`). -/
def mkDate (y m d : ℕ) : Option PyDate :=
  if validDate y m d then some ⟨y, m, d⟩ else none

/-- Fields recognised so far during a `strptime` match. -/
structure SPSt where
  py : Option ℕ
  pm : Option ℕ
  pd : Option ℕ

/-- English month names with numbers (C locale), in calendar order. -/
def monthFull : List (String × ℕ) :=
  [("january", 1), ("february", 2), ("march", 3), ("april", 4), ("may", 5),
   ("june", 6), ("july", 7), ("august", 8), ("september", 9), ("october", 10),
   ("november", 11), ("december", 12)]

/-- Month names in the longest-first order `TimeRE` compiles them in. -/
def monthFullSorted : List (String × ℕ) :=
  [("september", 9), ("february", 2), ("november", 11), ("december", 12),
   ("january", 1), ("october", 10), ("august", 8), ("march", 3), ("april", 4),
   ("june", 6), ("july", 7), ("may", 5)]

/-- English month abbreviations. -/
def monthAbbr : List (String × ℕ) :=
  [("jan", 1), ("feb", 2), ("mar", 3), ("apr", 4), ("may", 5), ("jun", 6),
   ("jul", 7), ("aug", 8), ("sep", 9), ("oct", 10), ("nov", 11), ("dec", 12)]

/-- Case-insensitive prefix test against a lowercase pattern. -/
def isPrefixCI : List Char → List Char → Bool
  | [], _ => true
  | _ :: _, [] => false
  | c :: cs, d :: ds => pyLowerChar d = c ∧ isPrefixCI cs ds

/-- First month name (from an ordered list) that prefixes the input;
returns the month number and the rest of the input. -/
def matchMonth (names : List (String × ℕ)) (inp : List Char) :
    Option (ℕ × List Char) :=
  match names with
  | [] => none
  | (nm, v) :: rest =>
    if isPrefixCI nm.data inp then some (v, inp.drop nm.length)
    else matchMonth rest inp

/-- Digit value of a character. -/
def dv (c : Char) : ℕ := c.toNat - '0'.toNat

/-- Regex-ordered match of one `strptime` format against the input
(backtracking through the per-directive alternatives via `Option` choice). -/
def spMatch : List Char → List Char → SPSt → Option SPSt
  | [], inp, st => if inp.isEmpty then some st else none
  | '%' :: 'Y' :: rest, inp, st =>
    match inp with
    | c1 :: c2 :: c3 :: c4 :: tl =>
      if isDigitCh c1 ∧ isDigitCh c2 ∧ isDigitCh c3 ∧ isDigitCh c4 then
        spMatch rest tl { st with py := some (digitsVal [c1, c2, c3, c4]) }
      else none
    | _ => none
  | '%' :: 'y' :: rest, inp, st =>
    match inp with
    | c1 :: c2 :: tl =>
      if isDigitCh c1 ∧ isDigitCh c2 then
        let yy := dv c1 * 10 + dv c2
        spMatch rest tl { st with py := some (if yy ≤ 68 then 2000 + yy else 1900 + yy) }
      else none
    | _ => none
  | '%' :: 'm' :: rest, inp, st =>
    (match inp with
     | c1 :: c2 :: tl =>
       if (c1 = '1' ∧ (c2 = '0' ∨ c2 = '1' ∨ c2 = '2')) ∨
          (c1 = '0' ∧ '1' ≤ c2 ∧ c2 ≤ '9') then
         spMatch rest tl { st with pm := some (dv c1 * 10 + dv c2) }
       else none
     | _ => none) <|>
    (match inp with
     | c1 :: tl =>
       if '1' ≤ c1 ∧ c1 ≤ '9' then spMatch rest tl { st with pm := some (dv c1) }
       else none
     | _ => none)
  | '%' :: 'd' :: rest, inp, st =>
    (match inp with
     | c1 :: c2 :: tl =>
       if (c1 = '3' ∧ (c2 = '0' ∨ c2 = '1')) ∨
          ((c1 = '1' ∨ c1 = '2') ∧ isDigitCh c2) ∨
          (c1 = '0' ∧ '1' ≤ c2 ∧ c2 ≤ '9') then
         spMatch rest tl { st with pd := some (dv c1 * 10 + dv c2) }
       else none
     | _ => none) <|>
    (match inp with
     | c1 :: tl =>
       if '1' ≤ c1 ∧ c1 ≤ '9' then spMatch rest tl { st with pd := some (dv c1) }
       else none
     | _ => none)
  | '%' :: 'B' :: rest, inp, st =>
    (match matchMonth monthFullSorted inp with
     | some (v, tl) => spMatch rest tl { st with pm := some v }
     | none => none)
  | '%' :: 'b' :: rest, inp, st =>
    (match matchMonth monthAbbr inp with
     | some (v, tl) => spMatch rest tl { st with pm := some v }
     | none => none)
  | '%' :: '%' :: rest, inp, st =>
    (match inp with
     | '%' :: tl => spMatch rest tl st
     | _ => none)
  | '%' :: _ :: _, _, _ => none
  | ['%'], _, _ => none
  | c :: rest, inp, st =>
    if isPySpace c then
      let ws := inp.takeWhile isPySpace
      if ws.isEmpty then none else spMatch rest (inp.drop ws.length) st
    else
      match inp with
      | d :: tl => if pyLowerChar d = pyLowerChar c then spMatch rest tl st else none
      | [] => none

/-- Model of `datetime.strptime(s, fmt)` followed by extracting the date
(`none` models the raised `ValueError`). -/
def strptime (s fmt : String) : Option PyDate :=
  match spMatch fmt.data s.data ⟨none, none, none⟩ with
  | none => none
  | some st => mkDate (st.py.getD 1900) (st.pm.getD 1) (st.pd.getD 1)

/-- Month name for `%B` output. -/
def monthNameCap (m : ℕ) : String :=
  match m with
  | 1 => "January" | 2 => "February" | 3 => "March" | 4 => "April"
  | 5 => "May" | 6 => "June" | 7 => "July" | 8 => "August"
  | 9 => "September" | 10 => "October" | 11 => "November" | 12 => "December"
  | _ => ""

/-- Abbreviated month name for `%b` output. -/
def monthAbbrCap (m : ℕ) : String :=
  match m with
  | 1 => "Jan" | 2 => "Feb" | 3 => "Mar" | 4 => "Apr" | 5 => "May" | 6 => "Jun"
  | 7 => "Jul" | 8 => "Aug" | 9 => "Sep" | 10 => "Oct" | 11 => "Nov" | 12 => "Dec"
  | _ => ""

/-- Model of `strftime` over the directives in scope (others are copied
verbatim, which no reachable call exercises). -/
def strftimeL : List Char → PyDate → List Char
  | [], _ => []
  | '%' :: 'Y' :: rest, dt => natPad 4 dt.year ++ strftimeL rest dt
  | '%' :: 'm' :: rest, dt => natPad 2 dt.month ++ strftimeL rest dt
  | '%' :: 'd' :: rest, dt => natPad 2 dt.day ++ strftimeL rest dt
  | '%' :: 'y' :: rest, dt => natPad 2 (dt.year % 100) ++ strftimeL rest dt
  | '%' :: 'B' :: rest, dt => (monthNameCap dt.month).data ++ strftimeL rest dt
  | '%' :: 'b' :: rest, dt => (monthAbbrCap dt.month).data ++ strftimeL rest dt
  | '%' :: '%' :: rest, dt => '%' :: strftimeL rest dt
  | '%' :: c :: rest, dt => '%' :: c :: strftimeL rest dt
  | c :: rest, dt => c :: strftimeL rest dt

/-- Model of `dt.strftime(fmt)`. -/
def strftime (fmt : String) (d : PyDate) : String := ⟨strftimeL fmt.data d⟩

/-- Take exactly `k` digits from the input. -/
def takeDigits : Nat → List Char → Option (List Char × List Char)
  | 0, l => some ([], l)
  | _ + 1, [] => none
  | k + 1, c :: tl =>
    if isDigitCh c then (takeDigits k tl).map (fun p => (c :: p.1, p.2)) else none

end Py

example : Py.strptime "05/01/2024" "%d/%m/%Y" = some ⟨2024, 1, 5⟩ := by decide
example : Py.strptime "05/01/2024" "%Y-%m-%d" = none := by decide
example : Py.strptime "2024-01-05" "%Y-%m-%d" = some ⟨2024, 1, 5⟩ := by decide
example : Py.strptime "30/02/2024" "%d/%m/%Y" = none := by decide
example : Py.strptime "5 January 2024" "%d %B %Y" = some ⟨2024, 1, 5⟩ := by decide
example : Py.strftime "%Y-%m-%d" ⟨2024, 1, 5⟩ = "2024-01-05" := by decide

/-! ## Decidable equality for the document tree -/

mutual

/-- Boolean equality on documents. -/
def Json.beq : Json → Json → Bool
  | .null, .null => true
  | .bool a, .bool b => decide (a = b)
  | .num a, .num b => decide (a = b)
  | .str a, .str b => decide (a = b)
  | .arr a, .arr b => JsonList.beq a b
  | .obj a, .obj b => JsonFields.beq a b
  | _, _ => false

/-- Boolean equality on value lists. -/
def JsonList.beq : JsonList → JsonList → Bool
  | .nil, .nil => true
  | .cons a as, .cons b bs => Json.beq a b && JsonList.beq as bs
  | _, _ => false

/-- Boolean equality on field lists. -/
def JsonFields.beq : JsonFields → JsonFields → Bool
  | .nil, .nil => true
  | .cons k v tl, .cons k' v' tl' =>
    decide (k = k') && Json.beq v v' && JsonFields.beq tl tl'
  | _, _ => false

end

mutual

/-- Soundness of `Json.beq`. -/
def Json.beqSound : (a b : Json) → Json.beq a b = true → a = b
  | .null, .null, _ => rfl
  | .bool _, .bool _, h => by
    simp only [Json.beq, decide_eq_true_eq] at h; exact congrArg Json.bool h
  | .num _, .num _, h => by
    simp only [Json.beq, decide_eq_true_eq] at h; exact congrArg Json.num h
  | .str _, .str _, h => by
    simp only [Json.beq, decide_eq_true_eq] at h; exact congrArg Json.str h
  | .arr a, .arr b, h => congrArg Json.arr (JsonList.beqSound a b h)
  | .obj a, .obj b, h => congrArg Json.obj (JsonFields.beqSound a b h)

/-- Soundness of `JsonList.beq`. -/
def JsonList.beqSound : (a b : JsonList) → JsonList.beq a b = true → a = b
  | .nil, .nil, _ => rfl
  | .cons a as, .cons b bs, h => by
    simp only [JsonList.beq, Bool.and_eq_true] at h
    rw [Json.beqSound a b h.1, JsonList.beqSound as bs h.2]

/-- Soundness of `JsonFields.beq`. -/
def JsonFields.beqSound : (a b : JsonFields) → JsonFields.beq a b = true → a = b
  | .nil, .nil, _ => rfl
  | .cons k v tl, .cons k' v' tl', h => by
    simp only [JsonFields.beq, Bool.and_eq_true, decide_eq_true_eq] at h
    rw [h.1.1, Json.beqSound v v' h.1.2, JsonFields.beqSound tl tl' h.2]

end

mutual

/-- Reflexivity of `Json.beq`. -/
def Json.beqRefl : (a : Json) → Json.beq a a = true
  | .null => rfl
  | .bool b => by simp [Json.beq]
  | .num q => by simp [Json.beq]
  | .str s => by simp [Json.beq]
  | .arr a => JsonList.beqRefl a
  | .obj a => JsonFields.beqRefl a

/-- Reflexivity of `JsonList.beq`. -/
def JsonList.beqRefl : (a : JsonList) → JsonList.beq a a = true
  | .nil => rfl
  | .cons a as => by
    simp only [JsonList.beq, Bool.and_eq_true]
    exact ⟨Json.beqRefl a, JsonList.beqRefl as⟩

/-- Reflexivity of `JsonFields.beq`. -/
def JsonFields.beqRefl : (a : JsonFields) → JsonFields.beq a a = true
  | .nil => rfl
  | .cons k v tl => by
    simp only [JsonFields.beq, Bool.and_eq_true, decide_eq_true_eq]
    exact ⟨⟨trivial, Json.beqRefl v⟩, JsonFields.beqRefl tl⟩

end

instance : DecidableEq Json := fun a b =>
  decidable_of_iff (Json.beq a b = true)
    ⟨Json.beqSound a b, fun h => h ▸ Json.beqRefl a⟩

instance : DecidableEq JsonList := fun a b =>
  decidable_of_iff (JsonList.beq a b = true)
    ⟨JsonList.beqSound a b, fun h => h ▸ JsonList.beqRefl a⟩

instance : DecidableEq JsonFields := fun a b =>
  decidable_of_iff (JsonFields.beq a b = true)
    ⟨JsonFields.beqSound a b, fun h => h ▸ JsonFields.beqRefl a⟩

/-! ## Key Resolver (`find_keys`, `nlp/runtime.py`) -/

/-- A KeyMatch: the container object (dict) together with the matched key,
the mutation handle every operation uses. -/
abbrev KeyMatch := JsonFields × String

namespace Runtime

mutual

/-- Resolver body: `find_keys` after the one-time normalization of the
target (`tgt = nkey(target)`).  Visits objects in field order, appending a
match before recursing into the value, then recurses through arrays. -/
def findKeysN (tgt : String) : Json → List KeyMatch
  | .obj fs => findKeysFields tgt fs fs
  | .arr xs => findKeysList tgt xs
  | _ => []

/-- Object case: `for k, v in o.items()`, with `container` the whole dict. -/
def findKeysFields (tgt : String) (container : JsonFields) :
    JsonFields → List KeyMatch
  | .nil => []
  | .cons k v tl =>
    (if nkey k = tgt then [(container, k)] else []) ++
      findKeysN tgt v ++ findKeysFields tgt container tl

/-- Array case: `for it in o: _rec(it)`. -/
def findKeysList (tgt : String) : JsonList → List KeyMatch
  | .nil => []
  | .cons x xs => findKeysN tgt x ++ findKeysList tgt xs

end

/-- Key Resolver `find_keys(obj, target)`: every (container, key) occurrence
of the logical name anywhere in the tree, the target being normalized once
up front. -/
def find_keys (obj : Json) (target : String) : List KeyMatch :=
  findKeysN (nkey target) obj

end Runtime

example :
    Runtime.find_keys
      (.mkObj [("Descripción", .str "x"),
               ("items", .mkArr [.mkObj [("descripcion", .str "y")]])])
      "DESCRIPCION" =
    [(match Json.mkObj [("Descripción", .str "x"),
               ("items", .mkArr [.mkObj [("descripcion", .str "y")]])] with
      | .obj fs => fs
      | _ => .nil, "Descripción"),
     (JsonFields.cons "descripcion" (.str "y") .nil, "descripcion")] := by decide

/-! ## Regex models used by the Date Normalizer (`nlp/runtime.py`) -/

namespace Py

/-- Word character for `\b` (`re.UNICODE`): letters (including the accented
repertoire in scope), digits, underscore. -/
def isWordCh (c : Char) : Bool :=
  ('a' ≤ c ∧ c ≤ 'z') ∨ ('A' ≤ c ∧ c ≤ 'Z') ∨ isDigitCh c ∨ c = '_' ∨
    nfdStripMn c ≠ c

/-- Letter class `[a-záéíóúüñ]` of the month-name regexes (applied to
lowercased input). -/
def isEsLetter (c : Char) : Bool :=
  ('a' ≤ c ∧ c ≤ 'z') ∨ c = 'á' ∨ c = 'é' ∨ c = 'í' ∨ c = 'ó' ∨ c = 'ú' ∨
    c = 'ü' ∨ c = 'ñ'

/-- One attempt of `\d{1,4}[./\-]\d{1,2}[./\-]\d{2,4}` anchored at the
current position, digit-count alternatives in greedy regex order. -/
def tryDateAt (l : List Char) : Option (List Char) :=
  let sep := fun c => c = '.' ∨ c = '/' ∨ c = '-'
  let step3 := fun (acc : List Char) (r : List Char) =>
    (takeDigits 4 r).map (fun p => acc ++ p.1) <|>
    (takeDigits 3 r).map (fun p => acc ++ p.1) <|>
    (takeDigits 2 r).map (fun p => acc ++ p.1)
  let step2 := fun (acc : List Char) (r : List Char) =>
    ((takeDigits 2 r).bind (fun p =>
        match p.2 with
        | c :: tl => if sep c then step3 (acc ++ p.1 ++ [c]) tl else none
        | [] => none)) <|>
    ((takeDigits 1 r).bind (fun p =>
        match p.2 with
        | c :: tl => if sep c then step3 (acc ++ p.1 ++ [c]) tl else none
        | [] => none))
  let step1 := fun (k : Nat) =>
    (takeDigits k l).bind (fun p =>
      match p.2 with
      | c :: tl => if sep c then step2 (p.1 ++ [c]) tl else none
      | [] => none)
  step1 4 <|> step1 3 <|> step1 2 <|> step1 1

/-- Leftmost search for the numeric date substring
(`re.search(r"(\d{1,4}[./\-]\d{1,2}[./\-]\d{2,4})", s)`). -/
def reDateSearch : List Char → Option (List Char)
  | [] => none
  | c :: tl =>
    match tryDateAt (c :: tl) with
    | some m => some m
    | none => reDateSearch tl

/-- Whitespace run `\s+`: consume one or more whitespace characters. -/
def wsPlus (l : List Char) : Option (List Char) :=
  let ws := l.takeWhile isPySpace
  if ws.isEmpty then none else some (l.drop ws.length)

/-- Literal `de` of the Spanish date pattern. -/
def litDe : List Char → Option (List Char)
  | 'd' :: 'e' :: tl => some tl
  | _ => none

/-- Trailing `\b`: the next character must not be a word character. -/
def atBoundary : List Char → Bool
  | [] => true
  | c :: _ => ¬ isWordCh c

/-- One attempt of the Spanish pattern
`\b(?P<d>\d{1,2})\s+de\s+(?P<m>[a-záéíóúüñ]{3,15})\s+de\s+(?P<y>\d{2,4})\b`
anchored at the current position (the leading `\b` is checked by the
caller). -/
def tryEsAt (l : List Char) : Option (ℕ × String × ℕ) :=
  let yPart := fun (d : ℕ) (mw : List Char) (r : List Char) =>
    (((takeDigits 4 r).bind (fun p =>
        if atBoundary p.2 then some (d, (⟨mw⟩ : String), digitsVal p.1) else none)) <|>
     ((takeDigits 3 r).bind (fun p =>
        if atBoundary p.2 then some (d, (⟨mw⟩ : String), digitsVal p.1) else none)) <|>
     ((takeDigits 2 r).bind (fun p =>
        if atBoundary p.2 then some (d, (⟨mw⟩ : String), digitsVal p.1) else none)))
  let afterD := fun (d : ℕ) (r : List Char) =>
    (wsPlus r).bind (fun r => (litDe r).bind (fun r => (wsPlus r).bind (fun r =>
      let mw := r.takeWhile isEsLetter
      if 3 ≤ mw.length ∧ mw.length ≤ 15 then
        (wsPlus (r.drop mw.length)).bind (fun r => (litDe r).bind (fun r =>
          (wsPlus r).bind (fun r => yPart d mw r)))
      else none)))
  ((takeDigits 2 l).bind (fun p => afterD (digitsVal p.1) p.2)) <|>
  ((takeDigits 1 l).bind (fun p => afterD (digitsVal p.1) p.2))

/-- Leftmost search for the Spanish month-name date pattern, tracking the
previous character for the leading `\b`. -/
def rxEsSearchGo (prev : Option Char) : List Char → Option (ℕ × String × ℕ)
  | [] => none
  | c :: tl =>
    match (if prev.all (fun p => ¬ isWordCh p) then tryEsAt (c :: tl) else none) with
    | some r => some r
    | none => rxEsSearchGo (some c) tl

/-- Search of `rx_es` over the lowered, stripped text. -/
def rxEsSearch (l : List Char) : Option (ℕ × String × ℕ) := rxEsSearchGo none l

/-- One attempt of the English pattern
`\b(?P<m>[a-záéíóúüñ]{3,15})\s+(?P<d>\d{1,2})(?:,\s*)?(?P<y>\d{2,4})\b`
anchored at the current position. -/
def tryEnAt (l : List Char) : Option (ℕ × String × ℕ) :=
  let yPart := fun (mw : List Char) (d : ℕ) (r : List Char) =>
    (((takeDigits 4 r).bind (fun p =>
        if atBoundary p.2 then some (d, (⟨mw⟩ : String), digitsVal p.1) else none)) <|>
     ((takeDigits 3 r).bind (fun p =>
        if atBoundary p.2 then some (d, (⟨mw⟩ : String), digitsVal p.1) else none)) <|>
     ((takeDigits 2 r).bind (fun p =>
        if atBoundary p.2 then some (d, (⟨mw⟩ : String), digitsVal p.1) else none)))
  let optComma := fun (mw : List Char) (d : ℕ) (r : List Char) =>
    (match r with
     | ',' :: tl => yPart mw d (tl.drop (tl.takeWhile isPySpace).length)
     | _ => none) <|>
    yPart mw d r
  let afterM := fun (mw : List Char) (r : List Char) =>
    (wsPlus r).bind (fun r =>
      ((takeDigits 2 r).bind (fun p => optComma mw (digitsVal p.1) p.2)) <|>
      ((takeDigits 1 r).bind (fun p => optComma mw (digitsVal p.1) p.2)))
  let mw := l.takeWhile isEsLetter
  if 3 ≤ mw.length ∧ mw.length ≤ 15 then afterM mw (l.drop mw.length) else none

/-- Leftmost search for the English month-name date pattern. -/
def rxEnSearchGo (prev : Option Char) : List Char → Option (ℕ × String × ℕ)
  | [] => none
  | c :: tl =>
    match (if prev.all (fun p => ¬ isWordCh p) then tryEnAt (c :: tl) else none) with
    | some r => some r
    | none => rxEnSearchGo (some c) tl

/-- Search of `rx_en` over the lowered, stripped text. -/
def rxEnSearch (l : List Char) : Option (ℕ × String × ℕ) := rxEnSearchGo none l

end Py

example : Py.reDateSearch "el 05/01/2024 x".data = some "05/01/2024".data := by decide
example : Py.reDateSearch "5 de enero de 2024".data = none := by decide
example : Py.rxEsSearch "5 de enero de 2024".data = some (5, "enero", 2024) := by decide
example : Py.rxEnSearch "january 5, 2024".data = some (5, "january", 2024) := by decide

/-! ## Date Normalizer (`format_date`, `nlp/runtime.py`; `_format_date`,
`nlp/apply_plan.py`) -/

namespace Runtime

/-- Modelled from the spec: the localized month-name table of
`format_date` is elided in `nlp/runtime.py` (line 79 reads
`months = { ... }  # (dejá tu dict como está)`), so it is reconstructed
from the spec's "localized month-name patterns (at least Spanish and
English)": Spanish and English month names and common abbreviations,
mapped to month numbers. -/
def months : List (String × ℕ) :=
  [("enero", 1), ("febrero", 2), ("marzo", 3), ("abril", 4), ("mayo", 5),
   ("junio", 6), ("julio", 7), ("agosto", 8), ("septiembre", 9),
   ("setiembre", 9), ("octubre", 10), ("noviembre", 11), ("diciembre", 12),
   ("ene", 1), ("feb", 2), ("mar", 3), ("abr", 4), ("may", 5), ("jun", 6),
   ("jul", 7), ("ago", 8), ("sep", 9), ("sept", 9), ("oct", 10), ("nov", 11),
   ("dic", 12),
   ("january", 1), ("february", 2), ("march", 3), ("april", 4), ("june", 6),
   ("july", 7), ("august", 8), ("september", 9), ("october", 10),
   ("november", 11), ("december", 12),
   ("jan", 1), ("apr", 4), ("aug", 8), ("dec", 12)]

/-- Month-word lookup (`m.group("m") in months` / `months[...]`). -/
def monthsLookup (w : String) : Option ℕ :=
  (months.find? (fun p => p.1 = w)).map (·.2)

/-- Modelled from the spec: the year-widening helper `_y` is referenced by
`format_date` but not defined anywhere in `src/`; the spec's "construct the
date field-by-field" is modelled as two-digit years meaning 20xx and other
values taken as written. -/
def _y (n : ℕ) : ℕ := if n < 100 then 2000 + n else n

/-- Ordered numeric formats `format_date` infers over. -/
def inferFmts : List String :=
  ["%Y-%m-%d", "%d/%m/%Y", "%d-%m-%Y", "%Y/%m/%d", "%d.%m.%Y",
   "%d/%m/%y", "%d-%m-%y", "%y-%m-%d", "%m/%d/%Y", "%m-%d-%Y"]

/-- First format that parses, formatted with the output format (one
iteration of `for f in fmts: try: return ... except: pass`). -/
def tryFmts : List String → String → String → Option String
  | [], _, _ => none
  | f :: fs, s, o =>
    match Py.strptime s f with
    | some dt => some (Py.strftime o dt)
    | none => tryFmts fs s o

/-- Date Normalizer `format_date(val, input_fmt, output_fmt)`
(`nlp/runtime.py`): explicit format first (failure falls through), then the
numeric-substring extraction and the common numeric formats, then the
Spanish and English month-name patterns building the date field by field;
`none` on total failure (the source returns `None`, never raises). -/
def format_date (val : Json) (input_fmt output_fmt : Json) : Option String :=
  let s := norm val
  if s = "" then none
  else
    let outJ := if output_fmt.truthy then output_fmt else .str "%Y-%m-%d"
    let isInfer : Bool := match input_fmt with | .str f => f = "infer" | _ => false
    let explicitRes :=
      if input_fmt.truthy ∧ ¬ isInfer then
        match input_fmt, outJ with
        | .str f, .str o => (Py.strptime s f).map (Py.strftime o)
        | _, _ => none
      else none
    match explicitRes with
    | some r => some r
    | none =>
      match outJ with
      | .str o =>
        let sTry : String := ⟨(Py.reDateSearch s.data).getD s.data⟩
        match tryFmts inferFmts sTry o with
        | some r => some r
        | none =>
          let st := Py.lower (Py.strip s)
          let esRes :=
            match Py.rxEsSearch st.data with
            | some (d, mw, yraw) =>
              match monthsLookup mw with
              | some m => (Py.mkDate (_y yraw) m d).map (Py.strftime o)
              | none => none
            | none => none
          match esRes with
          | some r => some r
          | none =>
            match Py.rxEnSearch st.data with
            | some (d, mw, yraw) =>
              match monthsLookup mw with
              | some m => (Py.mkDate (_y yraw) m d).map (Py.strftime o)
              | none => none
            | none => none
      | _ => none

end Runtime

namespace ApplyPlan

/-- Ordered inference formats of `_format_date` (`nlp/apply_plan.py`). -/
def apFmts : List String :=
  ["%Y-%m-%d", "%d/%m/%Y", "%d-%m-%Y", "%Y/%m/%d", "%d.%m.%Y",
   "%d %B %Y", "%d %b %Y"]

/-- Date formatting `_format_date` (`nlp/apply_plan.py`): with an explicit
format a parse failure returns `None` outright (no fallthrough); otherwise
the fixed format list is tried in order. -/
def _format_date (val : Json) (input_fmt output_fmt : Json) : Option String :=
  let s := _norm val
  if s = "" then none
  else
    let isInfer : Bool := match input_fmt with | .str f => f = "infer" | _ => false
    if input_fmt.truthy ∧ ¬ isInfer then
      match input_fmt, output_fmt with
      | .str f, .str o => (Py.strptime s f).map (Py.strftime o)
      | _, _ => none
    else
      match output_fmt with
      | .str o => Runtime.tryFmts apFmts s o
      | _ => none

/-- First of the four numeric formats that parses. -/
def tryDates : List String → String → Option Py.PyDate
  | [], _ => none
  | f :: fs, s =>
    match Py.strptime s f with
    | some d => some d
    | none => tryDates fs s

/-- Date parsing `_as_date` (`nlp/apply_plan.py`, both the module-level
helper and the local copy inside the `filter_between` branch, which agree:
`str(None)` parses under no format, matching the explicit `None` check). -/
def _as_date (s : Json) : Option Py.PyDate :=
  match s with
  | .null => none
  | v => tryDates ["%Y-%m-%d", "%d/%m/%Y", "%d-%m-%Y", "%Y/%m/%d"] (Py.pyStr v)

end ApplyPlan

example :
    Runtime.format_date (.str "05/01/2024") (.str "infer") (.str "%Y-%m-%d") =
      some "2024-01-05" := by decide
example :
    Runtime.format_date (.str "5 de enero de 2024") (.str "infer") (.str "%Y-%m-%d") =
      some "2024-01-05" := by decide
example :
    Runtime.format_date (.str "no date here") (.str "infer") (.str "%Y-%m-%d") =
      none := by decide
example :
    ApplyPlan._format_date (.str "05/01/2024") (.str "infer") (.str "%Y-%m-%d") =
      some "2024-01-05" := by decide
example : ApplyPlan._as_date (.str "2024-01-05") = some ⟨2024, 1, 5⟩ := by decide

/-! ## Registry operations (`nlp/ops/builtins.py`)

The name-searched operations registered by the `@op(...)` decorators.  Each
Python operation takes `(doc, step)`, may mutate `doc` through the
Resolver's KeyMatches and returns keep/drop; mutation is modelled by
returning the new document.  Since all KeyMatches are computed before any
mutation and each mutation is local to its containing dict, the aliased
in-place updates are equivalent to one per-node rewrite, applied to
children first (the key surgery of a node never inspects values, so the
order of the two commutes).  The LLM-backed operations (`convert_units`,
`translate_values`, `currency_to`) are outside this embedding; no claim
evaluates them through the registry. -/

namespace Builtins

/-- Python `step.get(k)` on the step dict. -/
def getStep (step : JsonFields) (k : String) : Json := (step.lookup k).getD .null

/-- One mutation `parent[new] = parent.pop(key)` of `rename_columns`, for
one matched key `k` of the evolving node state. -/
def renameKeyStepB (old new : String) (st : JsonFields) (k : String) : JsonFields :=
  if Runtime.nkey k = Runtime.nkey old then
    match st.lookup k with
    | some v => (st.erase k).set new v
    | none => st
  else st

/-- Key surgery of one node for one `(old, new)` entry: the matches are the
original keys of the node (as `find_keys` computed them), mutations applied
in order. -/
def renameSurgB (old new : String) (fs : JsonFields) : JsonFields :=
  fs.keys.foldl (renameKeyStepB old new) fs

mutual

/-- Whole-tree pass of `rename_columns` for one `(old, new)` entry. -/
def renamePassB (old new : String) : Json → Json
  | .obj fs => .obj (renameSurgB old new (renamePassBFields old new fs))
  | .arr xs => .arr (renamePassBList old new xs)
  | j => j

/-- Children of an object under `renamePassB`. -/
def renamePassBFields (old new : String) : JsonFields → JsonFields
  | .nil => .nil
  | .cons k v tl => .cons k (renamePassB old new v) (renamePassBFields old new tl)

/-- Elements of an array under `renamePassB`. -/
def renamePassBList (old new : String) : JsonList → JsonList
  | .nil => .nil
  | .cons x xs => .cons (renamePassB old new x) (renamePassBList old new xs)

end

/-- Sequential passes over the entries of the rename map
(`for old, new in mapping.items()`).  An entry whose destination is not a
string is outside the model (Python would create a non-string dict key,
unrepresentable in JSON and exercised by no claim). -/
def renameColsGo : JsonFields → Json → Json
  | .nil, doc => doc
  | .cons old newV tl, doc =>
    match newV with
    | .str new => renameColsGo tl (renamePassB old new doc)
    | _ => renameColsGo tl doc

/-- Registry operation `rename_columns(doc, step)`: for every map entry,
every resolved occurrence `(parent, key)` gets `parent[new] =
parent.pop(key)` — the destination is overwritten with the source value.
(A non-dict truthy `map`, on which Python raises, is outside the model.) -/
def rename_columns (doc : Json) (step : JsonFields) : Json × Bool :=
  let mappingJ := getStep step "map"
  let mapping := if mappingJ.truthy then mappingJ else .obj .nil
  match mapping with
  | .obj m => (renameColsGo m doc, true)
  | _ => (doc, true)

mutual

/-- Whole-tree pass of `format_date` over every resolved occurrence of the
column: a successfully reformatted value is replaced by the new string
(dropping whatever structure it had, as the source's assignment does), a
failed one is left as is and its children are visited. -/
def fdPass (tgt : String) (ifmt ofmt : Json) : Json → Json
  | .obj fs => .obj (fdPassFields tgt ifmt ofmt fs)
  | .arr xs => .arr (fdPassList tgt ifmt ofmt xs)
  | j => j

/-- Fields under `fdPass`. -/
def fdPassFields (tgt : String) (ifmt ofmt : Json) : JsonFields → JsonFields
  | .nil => .nil
  | .cons k v tl =>
    if Runtime.nkey k = tgt then
      match Runtime.format_date v ifmt ofmt with
      | some nv => .cons k (.str nv) (fdPassFields tgt ifmt ofmt tl)
      | none => .cons k (fdPass tgt ifmt ofmt v) (fdPassFields tgt ifmt ofmt tl)
    else .cons k (fdPass tgt ifmt ofmt v) (fdPassFields tgt ifmt ofmt tl)

/-- Elements under `fdPass`. -/
def fdPassList (tgt : String) (ifmt ofmt : Json) : JsonList → JsonList
  | .nil => .nil
  | .cons x xs => .cons (fdPass tgt ifmt ofmt x) (fdPassList tgt ifmt ofmt xs)

end

/-- Registry operation `format_date(doc, step)` (`format_date_op`). -/
def format_date_op (doc : Json) (step : JsonFields) : Json × Bool :=
  let col := getStep step "column"
  let ifmtRaw := getStep step "input_fmt"
  let input_fmt := if ifmtRaw.truthy then ifmtRaw else Json.str "infer"
  let ofmtRaw := getStep step "output_fmt"
  let output_fmt := if ofmtRaw.truthy then ofmtRaw else Json.str "%Y-%m-%d"
  (fdPass (Runtime.nkey (Py.pyStr col)) input_fmt output_fmt doc, true)

/-- The value a KeyMatch addresses (`parent[key]`). -/
def matchVal (m : KeyMatch) : Json := (m.1.lookup m.2).getD .null

/-- Registry operation `filter_equals(doc, step)`: keep iff ANY resolved
occurrence satisfies `norm(parent[key]) == norm(val)` — a `strip`-only
comparison, with no case folding. -/
def filter_equals (doc : Json) (step : JsonFields) : Bool :=
  let col := getStep step "column"
  let val := getStep step "value"
  (Runtime.find_keys doc (Py.pyStr col)).any
    (fun m => Runtime.norm (matchVal m) = Runtime.norm val)

/-- Registry operation `filter_contains(doc, step)`. -/
def filter_contains (doc : Json) (step : JsonFields) : Bool :=
  let col := getStep step "column"
  let val := getStep step "value"
  let nv := Runtime.norm val
  (Runtime.find_keys doc (Py.pyStr col)).any
    (fun m => Py.containsL nv.data (Runtime.norm (matchVal m)).data)

/-- Comparator table `{"<": a<b, "<=": a<=b, ">": a>b, ">=": a>=b}.get(op,
False)`. -/
def cmpTable (cmpop : Json) (a b : PyNum) : Bool :=
  match cmpop with
  | .str "<" => a.lt b
  | .str "<=" => a.le b
  | .str ">" => b.lt a
  | .str ">=" => b.le a
  | _ => false

/-- Registry operation `filter_compare(doc, step)`: keep iff ANY resolved
occurrence parses as a number and satisfies the comparison; occurrences
that do not parse are skipped. -/
def filter_compare (doc : Json) (step : JsonFields) : Bool :=
  let col := getStep step "column"
  let cmpop := getStep step "op"
  let val := getStep step "value"
  (Runtime.find_keys doc (Py.pyStr col)).any (fun m =>
    match Runtime.parse_number (matchVal m), Runtime.parse_number val with
    | some a, some b => cmpTable cmpop a b
    | _, _ => false)

/-- Registry operation `filter_between(doc, step)`: numeric containment in
the two-element `range`, existentially over the resolved occurrences. -/
def filter_between (doc : Json) (step : JsonFields) : Bool :=
  let col := getStep step "column"
  match getStep step "range" with
  | .arr (.cons lo (.cons hi .nil)) =>
    (Runtime.find_keys doc (Py.pyStr col)).any (fun m =>
      match Runtime.parse_number (matchVal m), Runtime.parse_number lo,
          Runtime.parse_number hi with
      | some a, some al, some ah => al.le a ∧ a.le ah
      | _, _, _ => false)
  | _ => false

end Builtins

example :
    Builtins.filter_compare (.mkObj [("monto", .str "150")])
      (.cons "op" (.str ">") (.cons "column" (.str "monto")
        (.cons "value" (.str "100") .nil))) = true := by decide
example :
    Builtins.filter_equals (.mkObj [("cliente", .str "ACME")])
      (.cons "op" (.str "filter_equals") (.cons "column" (.str "cliente")
        (.cons "value" (.str "acme") .nil))) = false := by decide
example :
    (Builtins.rename_columns (.mkObj [("Fecha", .str "05/01/2024")])
      (.cons "op" (.str "rename_columns")
        (.cons "map" (.mkObj [("Fecha", .str "fecha")]) .nil))).1 =
    .mkObj [("fecha", .str "05/01/2024")] := by decide
example :
    (Builtins.format_date_op (.mkObj [("fecha", .str "05/01/2024")])
      (.cons "op" (.str "format_date") (.cons "column" (.str "fecha")
        (.cons "output_fmt" (.str "%Y-%m-%d") .nil)))).1 =
    .mkObj [("fecha", .str "2024-01-05")] := by decide

/-! ## Schema-addressed executor internals (`nlp/apply_plan.py`) -/

/-- Python `isinstance(x, dict)`. -/
def Json.isObj : Json → Bool
  | .obj _ => true
  | _ => false

/-- Python `isinstance(x, list)`. -/
def Json.isArr : Json → Bool
  | .arr _ => true
  | _ => false

namespace ApplyPlan

/-- Error raised out of `execute_plan` (nothing inside it catches). -/
inductive PyErr where
  | typeErr
  | valueErr
  | attrErr
  deriving DecidableEq, Repr

end ApplyPlan

deriving instance DecidableEq for Except

namespace ApplyPlan

/-- Mapping of logical column names to schema paths (`_SCHEMA_MAP`);
`"*"` is the array wildcard of the `items` paths. -/
def _SCHEMA_MAP : List (String × List String) :=
  [("fecha", ["dates", "issue_date"]),
   ("date", ["dates", "issue_date"]),
   ("fec", ["dates", "issue_date"]),
   ("monto", ["totals", "total"]),
   ("importe", ["totals", "total"]),
   ("total", ["totals", "total"]),
   ("amount", ["totals", "total"]),
   ("moneda", ["totals", "currency"]),
   ("currency", ["totals", "currency"]),
   ("divisa", ["totals", "currency"]),
   ("descripcion", ["items", "*", "description"]),
   ("description", ["items", "*", "description"]),
   ("largo", ["items", "*", "largo"]),
   ("ancho", ["items", "*", "ancho"]),
   ("alto", ["items", "*", "alto"])]

/-- Column resolution `_get_path_for_column`. -/
def _get_path_for_column (column : Json) : Option (List String) :=
  (_SCHEMA_MAP.find? (fun p => p.1 = _nkey (Py.pyStr column))).map (·.2)

/-- Path read `_get_value_by_path`: walk dict keys; at `"*"` return the
list itself (ignoring the rest of the path); a missing key or non-dict
container yields Python `None` (conflated with JSON null, as the source
conflates them). -/
def _get_value_by_path : Json → List String → Json
  | cur, [] => cur
  | cur, k :: rest =>
    if k = "*" then (match cur with | .arr xs => .arr xs | _ => .null)
    else
      match cur with
      | .obj fs =>
        (match fs.lookup k with
         | some v => _get_value_by_path v rest
         | none => .null)
      | _ => .null

/-- Map a function over the dict elements of a list (`for j in range(len(arr)):
if isinstance(arr[j], dict): ...`). -/
def mapObjItems (f : Json → Json) : JsonList → JsonList
  | .nil => .nil
  | .cons x xs =>
    match x with
    | .obj fs => .cons (f (.obj fs)) (mapObjItems f xs)
    | _ => .cons x (mapObjItems f xs)

/-- Path write `_set_value_by_path` (path first so the recursion is
structural): `"*"` distributes over the dict items of the list,
intermediate missing/non-dict values are replaced by `{}` (`_ensure_obj`),
the final key is assigned dict-style. -/
def _set_value_by_path : List String → Json → Json → Json
  | [], cur, _ => cur
  | k :: rest, cur, value =>
    if k = "*" then
      match cur with
      | .arr xs => .arr (mapObjItems (fun d => _set_value_by_path rest d value) xs)
      | _ => cur
    else
      match rest with
      | [] =>
        match cur with
        | .obj fs => .obj (fs.set k value)
        | _ => cur
      | _ :: _ =>
        match cur with
        | .obj fs =>
          let child := match fs.lookup k with
            | some (.obj cfs) => Json.obj cfs
            | _ => Json.obj .nil
          .obj (fs.set k (_set_value_by_path rest child value))
        | _ => cur

/-- Apply a list-transformer at a star-free path prefix (used where the
source mutates, through the Resolver alias, the items of the list returned
by `_get_value_by_path` at the `"*"` position). -/
def _update_list_at : List String → (JsonList → JsonList) → Json → Json
  | [], f, cur =>
    match cur with
    | .arr xs => .arr (f xs)
    | j => j
  | k :: rest, f, cur =>
    match cur with
    | .obj fs =>
      (match fs.lookup k with
       | some v => .obj (fs.set k (_update_list_at rest f v))
       | none => cur)
    | _ => cur

/-- Lookup in `norm_map = {_nkey(k): v for k, v in mapping.items()}`: a
later entry with the same normalized key overwrites an earlier one. -/
def normMapLookup : JsonFields → String → Option Json
  | .nil, _ => none
  | .cons k v tl, nk =>
    match normMapLookup tl nk with
    | some r => some r
    | none => if _nkey k = nk then some v else none

/-- One key of the `_rename_keys_recursive` surgery: `if nk in norm_map:
new_k = norm_map[nk]; if new_k not in obj: obj[new_k] = obj.pop(k) else:
obj.pop(k)` (destination kept, source discarded).  A non-string destination
is outside the model (it would become a non-string dict key). -/
def renameKeyStepA (m : JsonFields) (st : JsonFields) (k : String) : JsonFields :=
  match normMapLookup m (_nkey k) with
  | some (.str newK) =>
    if st.hasKey newK then st.erase k
    else
      match st.lookup k with
      | some v => (st.erase k).set newK v
      | none => st
  | some _ => st
  | none => st

/-- Key surgery of one node over the snapshot `list(obj.keys())`. -/
def renameLevelA (m : JsonFields) (fs : JsonFields) : JsonFields :=
  fs.keys.foldl (renameKeyStepA m) fs

mutual

/-- Recursive rename `_rename_keys_recursive(obj, mapping)`: every node's
keys are renamed, recursing through dicts and lists.  Children are visited
first here; the source renames the node first and then visits the remaining
values, which is equivalent because the key surgery never inspects values
and dropped values are dropped either way. -/
def _rename_keys_recursive (m : JsonFields) : Json → Json
  | .obj fs => .obj (renameLevelA m (renameFieldsA m fs))
  | .arr xs => .arr (renameListA m xs)
  | j => j

/-- Fields under `_rename_keys_recursive`. -/
def renameFieldsA (m : JsonFields) : JsonFields → JsonFields
  | .nil => .nil
  | .cons k v tl => .cons k (_rename_keys_recursive m v) (renameFieldsA m tl)

/-- Elements under `_rename_keys_recursive`. -/
def renameListA (m : JsonFields) : JsonList → JsonList
  | .nil => .nil
  | .cons x xs => .cons (_rename_keys_recursive m x) (renameListA m xs)

end

end ApplyPlan

example :
    ApplyPlan._rename_keys_recursive
      (.cons "Fecha" (.str "fecha") .nil)
      (.mkObj [("Fecha", .str "05/01/2024")]) =
    .mkObj [("fecha", .str "05/01/2024")] := by decide

example :
    ApplyPlan._rename_keys_recursive
      (.cons "Fecha" (.str "fecha") .nil)
      (.mkObj [("FECHA", .str "x"), ("fecha", .str "y")]) =
    .mkObj [] := by decide

/-! ## Unit-conversion scalars of the executor (`nlp/apply_plan.py`) -/

namespace ApplyPlan

/-- Number-character class `[\d\.,\-]` of `_parse_val_unit`. -/
def isNumCls (c : Char) : Bool :=
  Py.isDigitCh c ∨ c = '.' ∨ c = ',' ∨ c = '-'

/-- Unit-character class `[a-záéíóú"”]` of `_parse_val_unit` (applied to
lowercased text). -/
def isUnitCls (c : Char) : Bool :=
  ('a' ≤ c ∧ c ≤ 'z') ∨ c = 'á' ∨ c = 'é' ∨ c = 'í' ∨ c = 'ó' ∨ c = 'ú' ∨
    c = '"' ∨ c = '”'

/-- Value/unit split `_parse_val_unit`: a bare number with a quote mark is
inches, then number-then-unit, then unit-then-number, then a bare number. -/
def _parse_val_unit (x : Json) : Option PyNum × Option String :=
  match x with
  | .null => (none, none)
  | v =>
    let t := Py.lower (Py.strip (Py.pyStr v))
    let l := t.data
    let num := l.takeWhile isNumCls
    let afterNum := (l.drop num.length).dropWhile Py.isPySpace
    -- pattern 1: ^([\d\.,\-]+)\s*["”]\s*$
    let p1 : Option (Option PyNum × Option String) :=
      if num.isEmpty then none
      else
        match afterNum with
        | c :: rest =>
          if (c = '"' ∨ c = '”') ∧ (rest.dropWhile Py.isPySpace).isEmpty then
            some (_parse_number (.str ⟨num⟩), some "in")
          else none
        | [] => none
    match p1 with
    | some r => r
    | none =>
      -- pattern 2: ^([\d\.,\-]+)\s*([a-záéíóú"”]+)\s*$
      let unit := afterNum.takeWhile isUnitCls
      let p2 : Option (Option PyNum × Option String) :=
        if ¬ num.isEmpty ∧ ¬ unit.isEmpty ∧
            ((afterNum.drop unit.length).dropWhile Py.isPySpace).isEmpty then
          some (_parse_number (.str ⟨num⟩), some ⟨Py.replaceCh '”' '"' unit⟩)
        else none
      match p2 with
      | some r => r
      | none =>
        -- pattern 3: ^([a-záéíóú"”]+)\s*([\d\.,\-]+)\s*$
        let unit3 := l.takeWhile isUnitCls
        let afterU := (l.drop unit3.length).dropWhile Py.isPySpace
        let num3 := afterU.takeWhile isNumCls
        let p3 : Option (Option PyNum × Option String) :=
          if ¬ unit3.isEmpty ∧ ¬ num3.isEmpty ∧
              ((afterU.drop num3.length).dropWhile Py.isPySpace).isEmpty then
            some (_parse_number (.str ⟨num3⟩), some ⟨Py.replaceCh '”' '"' unit3⟩)
          else none
        match p3 with
        | some r => r
        | none =>
          match _parse_number (.str t) with
          | some n => (some n, none)
          | none => (none, none)

/-- Length factors to millimetres (`_LEN_MM`). -/
def _LEN_MM : List (String × PyNum) :=
  [("mm", 1), ("cm", 10), ("m", 1000), ("in", ⟨254, 10⟩), ("\"", ⟨254, 10⟩),
   ("inch", ⟨254, 10⟩), ("pulgada", ⟨254, 10⟩), ("pulgadas", ⟨254, 10⟩)]

/-- Weight factors to grams (`_W_G`). -/
def _W_G : List (String × PyNum) :=
  [("g", 1), ("kg", 1000), ("lb", ⟨45359237, 100000⟩), ("lbs", ⟨45359237, 100000⟩)]

/-- Volume factors to millilitres (`_V_ML`). -/
def _V_ML : List (String × PyNum) :=
  [("ml", 1), ("l", 1000), ("lt", 1000), ("litro", 1000), ("litros", 1000)]

/-- Association lookup in a factor table. -/
def tabLookup (tab : List (String × PyNum)) (u : String) : Option PyNum :=
  (tab.find? (fun p => p.1 = u)).map (·.2)

/-- Generic body of `_len_to` / `_w_to` / `_v_to` for a factor table and its
base-unit suffix. -/
def _dim_to (tab : List (String × PyNum)) (base : String) (value : Json)
    (target : String) : Option String :=
  let (v?, u?) := _parse_val_unit value
  let target := Py.lower target
  match v? with
  | none => none
  | some v =>
    match u? with
    | none => some (Py.formatF2 v ++ " " ++ target)
    | some u =>
      match tabLookup tab u with
      | none => some (Py.formatF2 v ++ " " ++ u)
      | some f =>
        let baseAmt := v.mul f
        match tabLookup tab target with
        | none => some (Py.formatF2 baseAmt ++ " " ++ base)
        | some tf => some (Py.formatF2 (baseAmt.div tf) ++ " " ++ target)

/-- Scalar conversion `_convert_units_scalar`: dispatch on the dimension
table containing the (lowered) target, else annotate the value with the
target; a truthy non-string target raises (`.lower()` on it). -/
def _convert_units_scalar (value : Json) (target : Json) :
    Except PyErr (Option String) :=
  match (if target.truthy then target else .str "") with
  | .str ts =>
    let t := Py.lower ts
    if (tabLookup _LEN_MM t).isSome then .ok (_dim_to _LEN_MM "mm" value t)
    else if (tabLookup _W_G t).isSome then .ok (_dim_to _W_G "g" value t)
    else if (tabLookup _V_ML t).isSome then .ok (_dim_to _V_ML "ml" value t)
    else
      .ok (match value with
           | .null => none
           | v => some (Py.pyStr v ++ " (" ++ Py.pyStr target ++ ")"))
  | _ => .error .attrErr

end ApplyPlan

example :
    ApplyPlan._convert_units_scalar (.str "100 cm") (.str "m") =
      .ok (some "1.00 m") := by decide
example :
    ApplyPlan._convert_units_scalar (.str "2 kg") (.str "lb") =
      .ok (some "4.41 lb") := by decide
example :
    ApplyPlan._parse_val_unit (.str "10\"") = (some ⟨10, 1⟩, some "in") := by decide

/-! ## Plan executor `execute_plan` (`nlp/apply_plan.py`)

The executor runs each step in order on each document, `keep` turning false
(and processing stopping) on the first failing filter.  Python exceptions
that nothing in `execute_plan` catches are modelled by `Except PyErr`:
iterating a non-iterable `columns`, `.upper()`/`.lower()` on truthy
non-strings, and `float()` of a non-numeric rate-table entry. -/

namespace Py

/-- Python `str.upper()` on one character (same repertoire as the
lowercase table). -/
def pyUpperChar (c : Char) : Char :=
  if 'a' ≤ c ∧ c ≤ 'z' then Char.ofNat (c.toNat - 32)
  else match c with
  | 'á' => 'Á' | 'é' => 'É' | 'í' => 'Í' | 'ó' => 'Ó' | 'ú' => 'Ú'
  | 'ñ' => 'Ñ' | 'ç' => 'Ç' | _ => c

/-- Python `str.upper()`. -/
def pyUpper (s : String) : String := ⟨s.data.map pyUpperChar⟩

end Py

namespace ApplyPlan

/-- Python `x.upper()`: only strings have the attribute. -/
def pyUpperJ (j : Json) : Except PyErr String :=
  match j with
  | .str s => .ok (Py.pyUpper s)
  | _ => .error .attrErr

/-- Python `float(x)`: numbers and bools pass through, strings are parsed
(`ValueError` on failure), anything else is a `TypeError`. -/
def pyFloatJ (j : Json) : Except PyErr PyNum :=
  match j with
  | .num q => .ok q
  | .bool b => .ok (if b then 1 else 0)
  | .str s =>
    (match Py.pyFloat (Py.pyStripL s.data) with
     | some v => .ok v
     | none => .error .valueErr)
  | _ => .error .typeErr

/-- Python `for c in cols`: lists yield elements, strings their characters,
dicts their keys; iterating a number/bool/None raises `TypeError`. -/
def colsOf (j : Json) : Except PyErr (List Json) :=
  match j with
  | .arr xs => .ok xs.toList
  | .str s => .ok (s.data.map (fun c => Json.str ⟨[c]⟩))
  | .obj fsx => .ok (fsx.keys.map Json.str)
  | _ => .error .typeErr

/-- The two-step coercion `step.get(key, []) or []`. -/
def stepCols (fs : JsonFields) : Json :=
  let c0 := (fs.lookup "columns").getD (.arr .nil)
  if c0.truthy then c0 else .arr .nil

/-- One item of the `translate_values` list branch: prefix the leaf value
with the language tag when present and truthy. -/
def transItem (lang : Json) (leaf : String) (item : Json) : Json :=
  match item with
  | .obj fsx =>
    (match fsx.lookup leaf with
     | some v =>
       if v.truthy then
         .obj (fsx.set leaf (.str ("[" ++ Py.pyStr lang ++ "]" ++ Py.pyStr v)))
       else item
     | none => item)
  | _ => item

/-- Column fold of the `translate_values` branch. -/
def translateCols (lang : Json) : List Json → Json → Json
  | [], doc => doc
  | c :: cs, doc =>
    let doc' :=
      match _get_path_for_column c with
      | none => doc
      | some p =>
        let cur := _get_value_by_path doc p
        if cur.isArr ∧ p.contains "*" then
          _update_list_at (p.takeWhile (· ≠ "*"))
            (mapObjItems (transItem lang (p.getLast?.getD ""))) doc
        else if cur.truthy then
          _set_value_by_path p doc (.str ("[" ++ Py.pyStr lang ++ "]" ++ Py.pyStr cur))
        else doc
    translateCols lang cs doc'

/-- Items of the `convert_units` list branch (left-to-right, first raising
item aborts). -/
def convItems (target : Json) (leaf : String) : JsonList → Except PyErr JsonList
  | .nil => .ok .nil
  | .cons x xs => do
    let x' ← (match x with
      | .obj fsx =>
        (match fsx.lookup leaf with
         | some v =>
           if v.truthy then do
             let nv? ← _convert_units_scalar v target
             pure (match nv? with
               | some nv => Json.obj (fsx.set leaf (.str nv))
               | none => x)
           else pure x
         | none => pure x)
      | _ => pure x)
    let rest ← convItems target leaf xs
    pure (.cons x' rest)

/-- Column fold of the `convert_units` branch. -/
def convertCols (target : Json) : List Json → Json → Except PyErr Json
  | [], doc => .ok doc
  | c :: cs, doc => do
    let doc' ← (match _get_path_for_column c with
      | none => Except.ok doc
      | some p =>
        let cur := _get_value_by_path doc p
        if cur.isArr ∧ p.contains "*" then
          match cur with
          | .arr xs => do
            let xs' ← convItems target (p.getLast?.getD "") xs
            pure (_update_list_at (p.takeWhile (· ≠ "*")) (fun _ => xs') doc)
          | _ => pure doc
        else
          match cur with
          | .null => pure doc
          | v => do
            let nv? ← _convert_units_scalar v target
            pure (match nv? with
              | some nv => _set_value_by_path p doc (.str nv)
              | none => doc))
    convertCols target cs doc'

/-- Items of the `currency_to` list branch. -/
def ccyItems (factor : PyNum) (leaf : String) : JsonList → JsonList :=
  mapObjItems (fun item =>
    match item with
    | .obj fsx =>
      (match _parse_number ((fsx.lookup leaf).getD .null) with
       | some n => .obj (fsx.set leaf (.str (Py.formatF2 (n.mul factor))))
       | none => item)
    | _ => item)

/-- Column fold of the `currency_to` branch. -/
def ccyCols (factor : PyNum) : List Json → Json → Json
  | [], doc => doc
  | c :: cs, doc =>
    let doc' :=
      match _get_path_for_column c with
      | none => doc
      | some p =>
        let cur := _get_value_by_path doc p
        if cur.isArr ∧ p.contains "*" then
          _update_list_at (p.takeWhile (· ≠ "*"))
            (fun xs => ccyItems factor (p.getLast?.getD "") xs) doc
        else
          match _parse_number cur with
          | some n => _set_value_by_path p doc (.str (Py.formatF2 (n.mul factor)))
          | none => doc
    ccyCols factor cs doc'

/-- Fallback conversion factors of `currency_to`. -/
def curDefaults : List (String × PyNum) :=
  [("ARS", ⟨5, 1000⟩), ("USD", 1), ("EUR", ⟨11, 10⟩)]

/-- Lookup in the defaults table with the `1.0` fallback. -/
def curDefault (c : String) : PyNum :=
  ((curDefaults.find? (fun p => p.1 = c)).map (·.2)).getD 1

/-- Any line item satisfying the `filter_equals` condition (nonempty,
case-folded equality — no diacritic folding here). -/
def anyItemsEq (leaf : String) (val : Json) : JsonList → Bool
  | .nil => false
  | .cons x xs =>
    ((match x with
      | .obj fsx =>
        let n := _norm ((fsx.lookup leaf).getD .null)
        n ≠ "" ∧ Py.lower n = Py.lower (_norm val)
      | _ => false) : Bool) || anyItemsEq leaf val xs

/-- Any line item satisfying the `filter_contains` condition. -/
def anyItemsContains (leaf : String) (val : Json) : JsonList → Bool
  | .nil => false
  | .cons x xs =>
    ((match x with
      | .obj fsx =>
        Py.containsL (Py.lower (_norm val)).data
          (Py.lower (_norm ((fsx.lookup leaf).getD .null))).data
      | _ => false) : Bool) || anyItemsContains leaf val xs

/-- Lexicographic order on dates. -/
def dateLe (a b : Py.PyDate) : Bool :=
  a.year < b.year ∨ (a.year = b.year ∧
    (a.month < b.month ∨ (a.month = b.month ∧ a.day ≤ b.day)))

/-- One value against the `filter_between` range: date range first if all
three parse as dates, else numeric range. -/
def betweenVal (v lo hi : Json) : Bool :=
  match _as_date v, _as_date lo, _as_date hi with
  | some dv, some da, some db => dateLe da dv ∧ dateLe dv db
  | _, _, _ =>
    match _parse_number v, _parse_number lo, _parse_number hi with
    | some av, some al, some ah => al.le av ∧ av.le ah
    | _, _, _ => false

/-- Any line item inside the `filter_between` range. -/
def anyItemsBetween (leaf : String) (lo hi : Json) : JsonList → Bool
  | .nil => false
  | .cons x xs =>
    ((match x with
      | .obj fsx => betweenVal ((fsx.lookup leaf).getD .null) lo hi
      | _ => false) : Bool) || anyItemsBetween leaf lo hi xs

/-- Dispatch body of one `execute_plan` step, mirroring the source's
`if op == ... / elif op == ...` chain; an unrecognized op falls through and
leaves the document untouched (`none` means dropped by a failing filter). -/
def execStepBody (fs : JsonFields) (doc : Json) : Except PyErr (Option Json) :=
  let opJ := (fs.lookup "op").getD .null
  if opJ = Json.str "rename_columns" then
    let m0 := (fs.lookup "map").getD (.obj .nil)
    let mapping := if m0.truthy then m0 else Json.obj .nil
    (match mapping with
     | .obj (.cons a b c) => pure (some (_rename_keys_recursive (.cons a b c) doc))
     | _ => pure (some doc))
  else if opJ = Json.str "format_date" then
    (match _get_path_for_column ((fs.lookup "column").getD .null) with
     | none => pure (some doc)
     | some p =>
       let i0 := (fs.lookup "input_fmt").getD .null
       let input_fmt := if i0.truthy then i0 else Json.str "infer"
       let o0 := (fs.lookup "output_fmt").getD .null
       let output_fmt := if o0.truthy then o0 else Json.str "%Y-%m-%d"
       let cur := _get_value_by_path doc p
       if cur.isArr ∧ p.contains "*" then pure (some doc)
       else
         match _format_date cur input_fmt output_fmt with
         | some nv => pure (some (_set_value_by_path p doc (.str nv)))
         | none => pure (some doc))
  else if opJ = Json.str "translate_values" then do
    let cols ← colsOf (stepCols fs)
    let lang := (fs.lookup "target_lang").getD (.str "EN")
    pure (some (translateCols lang cols doc))
  else if opJ = Json.str "convert_units" then do
    let cols ← colsOf (stepCols fs)
    let target := (fs.lookup "target_unit").getD .null
    let doc' ← convertCols target cols doc
    pure (some doc')
  else if opJ = Json.str "filter_equals" then
    let val := (fs.lookup "value").getD .null
    (match _get_path_for_column ((fs.lookup "column").getD .null) with
     | none => pure none
     | some p =>
       let cur := _get_value_by_path doc p
       if cur.isArr ∧ p.contains "*" then
         match cur with
         | .arr xs => pure (if anyItemsEq (p.getLast?.getD "") val xs then some doc else none)
         | _ => pure none
       else
         pure (if Py.lower (_norm cur) = Py.lower (_norm val) then some doc else none))
  else if opJ = Json.str "filter_contains" then
    let val := (fs.lookup "value").getD .null
    (match _get_path_for_column ((fs.lookup "column").getD .null) with
     | none => pure none
     | some p =>
       let cur := _get_value_by_path doc p
       if cur.isArr ∧ p.contains "*" then
         match cur with
         | .arr xs =>
           pure (if anyItemsContains (p.getLast?.getD "") val xs then some doc else none)
         | _ => pure none
       else
         pure (if Py.containsL (Py.lower (_norm val)).data (Py.lower (_norm cur)).data
               then some doc else none))
  else if opJ = Json.str "filter_compare" then
    let cmpop := (fs.lookup "op").getD .null
    let val := (fs.lookup "value").getD .null
    (match _get_path_for_column ((fs.lookup "column").getD .null) with
     | none => pure none
     | some p =>
       let cur := _get_value_by_path doc p
       match _parse_number cur, _parse_number val with
       | some a, some b => pure (if Builtins.cmpTable cmpop a b then some doc else none)
       | _, _ => pure none)
  else if opJ = Json.str "filter_between" then
    let rng := (fs.lookup "range").getD (.arr .nil)
    let c0 := (fs.lookup "column").getD .null
    let colJ := if c0.truthy then c0 else Json.str "fecha"
    (match _get_path_for_column colJ, rng with
     | some p, .arr (.cons lo (.cons hi .nil)) =>
       let cur := _get_value_by_path doc p
       if cur.isArr ∧ p.contains "*" then
         match cur with
         | .arr xs =>
           pure (if anyItemsBetween (p.getLast?.getD "") lo hi xs then some doc else none)
         | _ => pure none
       else
         pure (if betweenVal cur lo hi then some doc else none)
     | _, _ => pure none)
  else if opJ = Json.str "currency_to" then do
    let cols ← colsOf (stepCols fs)
    let t0 := (fs.lookup "target").getD .null
    let target ← pyUpperJ (if t0.truthy then t0 else Json.str "USD")
    let rate := (fs.lookup "rate").getD (.num 1)
    let rt0 := (fs.lookup "rate_table").getD .null
    let rateTable := if rt0.truthy then rt0 else Json.obj .nil
    let cc0 := _get_value_by_path doc ["totals", "currency"]
    let cur_curr ← pyUpperJ (if cc0.truthy then cc0 else Json.str "ARS")
    let factor ← (match rate with
      | .num q => Except.ok q
      | .bool b => Except.ok (if b then (1 : PyNum) else 0)
      | .str s =>
        if s = "table" then
          match rateTable with
          | .obj rfs =>
            pyFloatJ ((rfs.lookup cur_curr).getD (.num (curDefault cur_curr)))
          | _ => Except.error PyErr.attrErr
        else Except.ok (curDefault cur_curr)
      | _ => Except.ok (curDefault cur_curr))
    let doc' := ccyCols factor cols doc
    pure (some (_set_value_by_path ["totals", "currency"] doc' (.str target)))
  else if opJ = Json.str "export" then pure (some doc)
  else pure (some doc)

/-- One step on one document: `(step or {}).get("op")` — a falsy step acts
as the empty dict (no branch matches), a truthy non-dict step raises. -/
def execStep (step : Json) (doc : Json) : Except PyErr (Option Json) :=
  if step.truthy then
    match step with
    | .obj f => execStepBody f doc
    | _ => .error .attrErr
  else execStepBody .nil doc

/-- All steps of the plan on one document, stopping at the first failing
filter. -/
def execDocSteps : List Json → Json → Except PyErr (Option Json)
  | [], doc => .ok (some doc)
  | step :: rest, doc => do
    match ← execStep step doc with
    | none => pure none
    | some doc' => execDocSteps rest doc'

/-- Per-document loop collecting survivors in order. -/
def execGo (plan : List Json) : List Json → Except PyErr (List Json)
  | [] => .ok []
  | d :: ds => do
    let r ← execDocSteps plan d
    let rest ← execGo plan ds
    pure (match r with
      | some d' => d' :: rest
      | none => rest)

/-- Plan executor `execute_plan(tags_or_list, plan)`: non-dict entries of a
batch are discarded up front (a single dict argument is the singleton
batch), then each document runs the plan independently; the survivors are
returned.  An uncaught Python exception is the `Except.error` case. -/
def execute_plan (docs : List Json) (plan : List Json) :
    Except PyErr (List Json) :=
  execGo plan (docs.filter Json.isObj)

end ApplyPlan

/-! ## Dead module-level filter helpers (`nlp/apply_plan.py`, lines 167-195)

Defined in the source but not called by `execute_plan`'s branches; embedded
because they document the intended (case- and diacritic-insensitive)
comparison semantics. -/

namespace ApplyPlan

/-- Helper `_filter_eq(val, target)`: `_nkey(val) == _nkey(target)` —
case- and diacritic-insensitive equality. -/
def _filter_eq (val target : Json) : Bool :=
  _nkey (Py.pyStr val) = _nkey (Py.pyStr target)

/-- Helper `_filter_contains(val, needle)`. -/
def _filter_contains (val needle : Json) : Bool :=
  Py.containsL (_nkey (Py.pyStr needle)).data (_nkey (Py.pyStr val)).data

end ApplyPlan

/-! ## Currency converter (`input/currency_converter.py`)

`get_rates` (cache file, primary and mirror endpoints) is modelled as an
oracle `fetch base date`, returning the rate table for the base currency or
`none` when every retrieval path fails (the uncaught `RuntimeError` /
invalid-cache `KeyError`). -/

namespace CurrencyConverter

/-- A fetched rate table: `{code: rate}` for one base currency. -/
abbrev RateTable := List (String × PyNum)

/-- Failure of `convert`. -/
inductive CcyErr where
  | fetchFailed
  | noCrossing
  deriving DecidableEq, Repr

/-- Python `to in rates` / `rates[to]`. -/
def rateLookup (tbl : RateTable) (code : String) : Option PyNum :=
  (tbl.find? (fun p => p.1 = code)).map (·.2)

/-- Conversion `CurrencyConverter.convert(amount, from_, to, date)`:
identity when the codes agree (after lowering); otherwise try the table
with `base=from_` and read `to` — any failure in that attempt is swallowed —
then the table with `base=to`, inverting the rate for `from_`
(triangulation); a missing `from_` entry there raises the typed
"No hay cruce disponible" `ValueError` (`CcyErr.noCrossing`). -/
def convert (fetch : String → String → Option RateTable) (amount : PyNum)
    (from_ toC : String) (date : String) : Except CcyErr PyNum :=
  let f := Py.lower from_
  let t := Py.lower toC
  if f = t then .ok amount
  else
    let attempt1 : Option PyNum :=
      match fetch f date with
      | some rates => (rateLookup rates t).map (fun r => amount.mul r)
      | none => none
    match attempt1 with
    | some r => .ok r
    | none =>
      match fetch t date with
      | none => .error .fetchFailed
      | some rates =>
        match rateLookup rates f with
        | none => .error .noCrossing
        | some r => .ok (amount.mul r.inv)

end CurrencyConverter

/-! ## Instruction compiler selection (`nlp/instruction_qwen.py`)

`interpret_with_qwen` is modelled at its selection point: the semantic
service's reply enters as `reply : Option Json` (`none` for an
unparseable/invalid reply, where `_extract_json_from_any` raises), and the
deterministic rule-based plan `_heuristic_plan(text)` enters as the
parameter `plan_h` — the claim under study is about how the two plans are
composed, not about the regexes inside the heuristic. -/

namespace InstructionQwen

/-- The op vocabulary `safe_ops` accepted from the semantic reply. -/
def safe_ops : List String :=
  ["rename_columns", "format_date", "translate_values", "convert_units",
   "filter_equals", "filter_contains", "filter_compare", "filter_between",
   "currency_to", "export", "normalize_text", "cleanup_text_llm"]

/-- A step kept by the filter `isinstance(s, dict) and s.get("op") in
safe_ops`. -/
def validStep (s : Json) : Bool :=
  match s with
  | .obj fsx =>
    (match fsx.lookup "op" with
     | some (.str o) => safe_ops.contains o
     | _ => false)
  | _ => false

/-- The semantic plan `plan_llm`: the filtered `plan` array of a parsed
object reply; every other shape (no reply, non-dict JSON, missing or
non-list `plan` — including the iterable-but-step-free string/dict cases
and the `TypeError`-raising scalar cases, all caught) yields `[]`. -/
def plan_llm (reply : Option Json) : List Json :=
  match reply with
  | some (.obj fsx) =>
    (match fsx.lookup "plan" with
     | some (.arr xs) => xs.toList.filter validStep
     | _ => [])
  | _ => []

/-- Selection policy of `interpret_with_qwen`: empty instruction short-
circuits to the empty plan; otherwise `final_plan = plan_llm or plan_h`. -/
def interpret_with_qwen (text : String) (reply : Option Json)
    (plan_h : List Json) : List Json :=
  if Py.strip text = "" then []
  else
    let pl := plan_llm reply
    if pl.isEmpty then plan_h else pl

end InstructionQwen

/-! ## Occurrences of a logical field name (for the Resolver claims) -/

/-- Membership of a binding in an object's fields. -/
def JsonFields.Mem (k : String) (v : Json) : JsonFields → Prop
  | .nil => False
  | .cons k' v' tl => (k = k' ∧ v = v') ∨ Mem k v tl

/-- Membership of an element in a JSON list. -/
def JsonList.Mem (x : Json) : JsonList → Prop
  | .nil => False
  | .cons y ys => x = y ∨ Mem x ys

/-- An occurrence of a (normalized) logical name anywhere in a document:
the KeyMatch `(fs, k)` is reachable and `nkey k` equals the target. -/
inductive KeyOccurs (tgt : String) : Json → KeyMatch → Prop where
  | here (fs : JsonFields) (k : String) (v : Json) :
      JsonFields.Mem k v fs → Runtime.nkey k = tgt → KeyOccurs tgt (.obj fs) (fs, k)
  | inField (fs : JsonFields) (k : String) (v : Json) (m : KeyMatch) :
      JsonFields.Mem k v fs → KeyOccurs tgt v m → KeyOccurs tgt (.obj fs) m
  | inElem (xs : JsonList) (x : Json) (m : KeyMatch) :
      JsonList.Mem x xs → KeyOccurs tgt x m → KeyOccurs tgt (.arr xs) m

/-! ## Claim theorems -/

/-- C1: the spec's scenario says the plan `[rename_columns {Fecha→fecha},
format_date fecha %Y-%m-%d]` over `{"Fecha":"05/01/2024"}` yields
`{"fecha":"2024-01-05"}`.  The wired executor `execute_plan` renames but
does NOT reformat the date: `format_date` resolves the column `fecha`
through `_SCHEMA_MAP` to the path `dates.issue_date`, which the document
lacks, so the value is untouched and the output is
`{"fecha":"05/01/2024"}`.  The name-searched registry operations
(`rename_columns` then `format_date` of `nlp/ops/builtins.py`, which no
executor calls) produce exactly the claimed `{"fecha":"2024-01-05"}`. -/
theorem scenario_rename_format_date_eval :
    ApplyPlan.execute_plan [.mkObj [("Fecha", .str "05/01/2024")]]
      [.mkObj [("op", .str "rename_columns"), ("map", .mkObj [("Fecha", .str "fecha")])],
       .mkObj [("op", .str "format_date"), ("column", .str "fecha"),
               ("output_fmt", .str "%Y-%m-%d")]] =
      .ok [.mkObj [("fecha", .str "05/01/2024")]] ∧
    .mkObj [("fecha", .str "05/01/2024")] ≠ Json.mkObj [("fecha", .str "2024-01-05")] ∧
    (Builtins.format_date_op
      (Builtins.rename_columns (.mkObj [("Fecha", .str "05/01/2024")])
        (.cons "op" (.str "rename_columns")
          (.cons "map" (.mkObj [("Fecha", .str "fecha")]) .nil))).1
      (.cons "op" (.str "format_date") (.cons "column" (.str "fecha")
        (.cons "output_fmt" (.str "%Y-%m-%d") .nil)))).1 =
      .mkObj [("fecha", .str "2024-01-05")] := by
  refine ⟨by decide, by decide, by decide⟩

/-- C2: the spec's scenario step carries the comparator in the same `"op"`
field used for dispatch, so its JSON form is
`{"op":">","column":"monto","value":"100"}`; `execute_plan` treats `">"` as
an unknown op and keeps BOTH documents unchanged.  A step dispatching as
`filter_compare` fares no better: the executor resolves `monto` through
`_SCHEMA_MAP` to `totals.total`, absent from both documents, and drops
BOTH.  Only the registry `filter_compare` of `nlp/ops/builtins.py` (never
dispatched by any executor in the source) implements the claimed
existential name-searched semantics, keeping exactly the second document. -/
theorem scenario_filter_compare_eval :
    ApplyPlan.execute_plan
      [.mkObj [("monto", .str "50")], .mkObj [("monto", .str "150")]]
      [.mkObj [("op", .str ">"), ("column", .str "monto"), ("value", .str "100")]] =
      .ok [.mkObj [("monto", .str "50")], .mkObj [("monto", .str "150")]] ∧
    ApplyPlan.execute_plan
      [.mkObj [("monto", .str "50")], .mkObj [("monto", .str "150")]]
      [.mkObj [("op", .str "filter_compare"), ("column", .str "monto"),
               ("value", .str "100")]] =
      .ok [] ∧
    Builtins.filter_compare (.mkObj [("monto", .str "50")])
      (.cons "op" (.str ">") (.cons "column" (.str "monto")
        (.cons "value" (.str "100") .nil))) = false ∧
    Builtins.filter_compare (.mkObj [("monto", .str "150")])
      (.cons "op" (.str ">") (.cons "column" (.str "monto")
        (.cons "value" (.str "100") .nil))) = true := by
  refine ⟨by decide, by decide, by decide, by decide⟩

/-- C3: the spec says `filter_equals` keeps `{"cliente":"ACME"}` for value
`"acme"` (case- and diacritic-insensitively).  The registry
`filter_equals` compares with `norm` (strip only, no case folding) and
rejects the document; the wired executor drops it too, since `cliente` is
not in `_SCHEMA_MAP`.  The case/diacritic-insensitive comparator exists in
the source as the dead helper `_filter_eq` of `nlp/apply_plan.py`, which
would keep the document. -/
theorem filter_equals_case_sensitivity_eval :
    Builtins.filter_equals (.mkObj [("cliente", .str "ACME")])
      (.cons "op" (.str "filter_equals") (.cons "column" (.str "cliente")
        (.cons "value" (.str "acme") .nil))) = false ∧
    ApplyPlan.execute_plan [.mkObj [("cliente", .str "ACME")]]
      [.mkObj [("op", .str "filter_equals"), ("column", .str "cliente"),
               ("value", .str "acme")]] = .ok [] ∧
    ApplyPlan._filter_eq (.str "ACME") (.str "acme") = true := by
  refine ⟨by decide, by decide, by decide⟩

/-- C8: `format_date` with input format `"infer"` parses localized
month-name dates in Spanish and English, building the date field by field,
and yields `none` (not an exception — the embedding is a total function
into `Option`) on a string with no recognizable date. -/
theorem format_date_month_names_and_total_failure :
    Runtime.format_date (.str "5 de enero de 2024") (.str "infer")
        (.str "%Y-%m-%d") = some "2024-01-05" ∧
    Runtime.format_date (.str "january 5, 2024") (.str "infer")
        (.str "%Y-%m-%d") = some "2024-01-05" ∧
    Runtime.format_date (.str "sin fecha conocida") (.str "infer")
        (.str "%Y-%m-%d") = none := by
  refine ⟨by decide, by decide, by decide⟩

/-- C9: batch execution is NOT per-document noninterference in the code: a
`currency_to` step with `rate="table"` and a non-numeric rate-table entry
raises an uncaught `ValueError` (`float("x")`) only for a document whose
currency is `ARS`; as a singleton batch the `USD` document converts fine,
but in a batch together with the `ARS` document the whole call errors and
the `USD` document's output is lost. -/
theorem batch_execution_abort_eval :
    ApplyPlan.execute_plan
      [.mkObj [("totals", .mkObj [("currency", .str "USD"), ("total", .str "100")])]]
      [.mkObj [("op", .str "currency_to"), ("target", .str "USD"),
               ("rate", .str "table"), ("rate_table", .mkObj [("ARS", .str "x")]),
               ("columns", .mkArr [.str "monto"])]] =
      .ok [.mkObj [("totals", .mkObj [("currency", .str "USD"),
                                      ("total", .str "100.00")])]] ∧
    ApplyPlan.execute_plan
      [.mkObj [("totals", .mkObj [("currency", .str "ARS"), ("total", .str "5")])]]
      [.mkObj [("op", .str "currency_to"), ("target", .str "USD"),
               ("rate", .str "table"), ("rate_table", .mkObj [("ARS", .str "x")]),
               ("columns", .mkArr [.str "monto"])]] =
      .error ApplyPlan.PyErr.valueErr ∧
    ApplyPlan.execute_plan
      [.mkObj [("totals", .mkObj [("currency", .str "USD"), ("total", .str "100")])],
       .mkObj [("totals", .mkObj [("currency", .str "ARS"), ("total", .str "5")])]]
      [.mkObj [("op", .str "currency_to"), ("target", .str "USD"),
               ("rate", .str "table"), ("rate_table", .mkObj [("ARS", .str "x")]),
               ("columns", .mkArr [.str "monto"])]] =
      .error ApplyPlan.PyErr.valueErr := by
  refine ⟨by decide, by decide, by decide⟩

/-- C10 counterexample: with map `{"Fecha":"fecha"}` on
`{"FECHA":"x","fecha":"y"}` (both keys present, the first matching the old
name, the second the destination), the executor's `rename_columns` deletes
the destination entry as well — the destination key itself matches the old
name case-insensitively, so the second fold step pops it — leaving `{}`
rather than the claimed `{"fecha":"y"}`. -/
theorem rename_collision_destination_deleted :
    ApplyPlan.execute_plan [.mkObj [("FECHA", .str "x"), ("fecha", .str "y")]]
      [.mkObj [("op", .str "rename_columns"),
               ("map", .mkObj [("Fecha", .str "fecha")])]] =
      .ok [.mkObj []] ∧
    Json.mkObj [] ≠ .mkObj [("fecha", .str "y")] := by
  refine ⟨by decide, by decide⟩

/-! ## Resolver completeness lemmas -/

/-- A binding of the container whose key normalizes to the target is
collected by the field scan. -/
theorem mem_findKeysFields_here (tgt : String) (container : JsonFields)
    (k : String) (v : Json) :
    ∀ fs' : JsonFields, JsonFields.Mem k v fs' → Runtime.nkey k = tgt →
      (container, k) ∈ Runtime.findKeysFields tgt container fs'
  | .nil, h, _ => absurd h id
  | .cons k' v' tl, hm, hk => by
    simp only [Runtime.findKeysFields]
    rcases hm with ⟨hk', _⟩ | hm
    · subst hk'
      rw [hk]
      simp
    · exact List.mem_append_right _
        (mem_findKeysFields_here tgt container k v tl hm hk)

/-- A match found inside a field's value is collected by the field scan. -/
theorem mem_findKeysFields_val (tgt : String) (container : JsonFields)
    (k : String) (v : Json) (m : KeyMatch) :
    ∀ fs' : JsonFields, JsonFields.Mem k v fs' →
      m ∈ Runtime.findKeysN tgt v →
      m ∈ Runtime.findKeysFields tgt container fs'
  | .nil, h, _ => absurd h id
  | .cons k' v' tl, hm, hv => by
    simp only [Runtime.findKeysFields]
    rcases hm with ⟨_, hv'⟩ | hm
    · subst hv'
      exact List.mem_append_left _ (List.mem_append_right _ hv)
    · exact List.mem_append_right _
        (mem_findKeysFields_val tgt container k v m tl hm hv)

/-- A match found inside a list element is collected by the list scan. -/
theorem mem_findKeysList_elem (tgt : String) (x : Json) (m : KeyMatch) :
    ∀ xs : JsonList, JsonList.Mem x xs → m ∈ Runtime.findKeysN tgt x →
      m ∈ Runtime.findKeysList tgt xs
  | .nil, h, _ => absurd h id
  | .cons y ys, hm, hx => by
    simp only [Runtime.findKeysList]
    rcases hm with hxy | hm
    · subst hxy
      exact List.mem_append_left _ hx
    · exact List.mem_append_right _ (mem_findKeysList_elem tgt x m ys hm hx)

/-- Completeness of the Resolver: every occurrence of the normalized target
name in the tree appears among the matches. -/
theorem findKeysN_complete (tgt : String) (doc : Json) (m : KeyMatch)
    (h : KeyOccurs tgt doc m) : m ∈ Runtime.findKeysN tgt doc := by
  induction h with
  | here fs k v hm hk =>
    simpa only [Runtime.findKeysN] using mem_findKeysFields_here tgt fs k v fs hm hk
  | inField fs k v m hm _ ih =>
    simpa only [Runtime.findKeysN] using mem_findKeysFields_val tgt fs k v m fs hm ih
  | inElem xs x m hm _ ih =>
    simpa only [Runtime.findKeysN] using mem_findKeysList_elem tgt x m xs hm ih

/-- C6: the Key Resolver is case/diacritic-invariant — `find_keys` depends
on the target only through `nkey`, so the spec's two spellings give
identical KeyMatch lists on every document — and exhaustive: every
occurrence of the logical name anywhere in the nested tree (as captured by
`KeyOccurs`) is returned. -/
theorem resolver_invariance_and_completeness :
    (∀ doc : Json,
       Runtime.find_keys doc "Descripcion" = Runtime.find_keys doc "descripción") ∧
    (∀ (doc : Json) (target : String) (m : KeyMatch),
       KeyOccurs (Runtime.nkey target) doc m → m ∈ Runtime.find_keys doc target) := by
  constructor
  · intro doc
    have h : Runtime.nkey "Descripcion" = Runtime.nkey "descripción" := by decide
    unfold Runtime.find_keys
    rw [h]
  · intro doc target m h
    exact findKeysN_complete _ _ _ h

/-- C6 witness: the invariance and completeness instantiated on a concrete
document, with an explicit occurrence derivation. -/
theorem resolver_invariance_and_completeness_inst :
    Runtime.find_keys (Json.mkObj [("Descripción", .str "x")]) "Descripcion" =
      Runtime.find_keys (Json.mkObj [("Descripción", .str "x")]) "descripción" ∧
    (JsonFields.cons "Descripción" (.str "x") .nil, "Descripción") ∈
      Runtime.find_keys (Json.mkObj [("Descripción", .str "x")]) "DESCRIPCION" := by
  refine ⟨resolver_invariance_and_completeness.1 _,
    resolver_invariance_and_completeness.2 _ "DESCRIPCION" _ ?_⟩
  exact KeyOccurs.here _ "Descripción" (.str "x") (Or.inl ⟨rfl, rfl⟩) (by decide)

/-! ## Unknown-op tolerance -/

namespace ApplyPlan

/-- The op names `execute_plan` dispatches on. -/
def handledOps : List Json :=
  [.str "rename_columns", .str "format_date", .str "translate_values",
   .str "convert_units", .str "filter_equals", .str "filter_contains",
   .str "filter_compare", .str "filter_between", .str "currency_to",
   .str "export"]

end ApplyPlan

/-- C7: for every document and every step object whose `"op"` value is
outside the executor's vocabulary, executing the single-step plan leaves
the document unchanged and kept — the step is skipped, with no error and no
drop. -/
theorem unknown_op_is_skipped (fsx : JsonFields) (doc : Json)
    (hdoc : doc.isObj = true)
    (h : (fsx.lookup "op").getD .null ∉ ApplyPlan.handledOps) :
    ApplyPlan.execute_plan [doc] [.obj fsx] = .ok [doc] := by
  have hstep : ApplyPlan.execStep (.obj fsx) doc = .ok (some doc) := by
    rcases fsx with _ | ⟨k0, v0, tl⟩
    · rfl
    · simp only [ApplyPlan.handledOps, List.mem_cons, List.not_mem_nil,
        or_false] at h
      push_neg at h
      obtain ⟨h1, h2, h3, h4, h5, h6, h7, h8, h9, h10⟩ := h
      show ApplyPlan.execStepBody (.cons k0 v0 tl) doc = .ok (some doc)
      simp only [ApplyPlan.execStepBody, if_neg h1, if_neg h2, if_neg h3,
        if_neg h4, if_neg h5, if_neg h6, if_neg h7, if_neg h8, if_neg h9,
        if_neg h10]
      rfl
  simp only [ApplyPlan.execute_plan, List.filter, hdoc, ApplyPlan.execGo,
    ApplyPlan.execDocSteps, hstep, Except.bind]
  rfl

/-- C7 witness: the plan `[{"op":"bogus"}]` on `{"a":1}`. -/
theorem unknown_op_is_skipped_inst :
    Json.isObj (Json.mkObj [("a", .num 1)]) = true ∧
    ApplyPlan.execute_plan [.mkObj [("a", .num 1)]]
      [.mkObj [("op", .str "bogus")]] = .ok [.mkObj [("a", .num 1)]] :=
  ⟨by decide, unknown_op_is_skipped (.cons "op" (.str "bogus") .nil) _
    (by decide) (by decide)⟩

/-- C5: the selection policy of the instruction compiler.  For a nonempty
instruction: if the semantic reply contributes at least one valid step, the
compiled plan is exactly the (vocabulary-filtered) semantic plan; otherwise
it is exactly the deterministic rule-based plan; an unparseable reply
contributes the empty semantic plan; every step of the semantic plan is in
the known vocabulary; and the output is always one of the two plans whole —
never a mixture. -/
theorem compiler_selection_policy (text : String) (reply : Option Json)
    (plan_h : List Json) (hne : Py.strip text ≠ "") :
    (InstructionQwen.plan_llm reply ≠ [] →
       InstructionQwen.interpret_with_qwen text reply plan_h =
         InstructionQwen.plan_llm reply) ∧
    (InstructionQwen.plan_llm reply = [] →
       InstructionQwen.interpret_with_qwen text reply plan_h = plan_h) ∧
    (reply = none → InstructionQwen.plan_llm reply = []) ∧
    (∀ s ∈ InstructionQwen.plan_llm reply, InstructionQwen.validStep s = true) ∧
    (InstructionQwen.interpret_with_qwen text reply plan_h =
       InstructionQwen.plan_llm reply ∨
     InstructionQwen.interpret_with_qwen text reply plan_h = plan_h) := by
  have hi : InstructionQwen.interpret_with_qwen text reply plan_h =
      (if (InstructionQwen.plan_llm reply).isEmpty then plan_h
       else InstructionQwen.plan_llm reply) := by
    simp [InstructionQwen.interpret_with_qwen, hne]
  refine ⟨?_, ?_, ?_, ?_, ?_⟩
  · intro hpl
    rw [hi, if_neg]
    simpa [List.isEmpty_iff] using hpl
  · intro hpl
    rw [hi, if_pos]
    simp [hpl]
  · intro h
    subst h
    rfl
  · intro s hs
    simp only [InstructionQwen.plan_llm] at hs
    split at hs
    · split at hs
      · exact List.of_mem_filter hs
      · simp at hs
    · simp at hs
  · rw [hi]
    split
    · right; rfl
    · left; rfl

/-- C5 witness: a reply with one valid and one out-of-vocabulary step; the
compiled plan is the filtered semantic plan and the heuristic plan is
unused. -/
theorem compiler_selection_policy_inst :
    Py.strip "traducir al ingles" ≠ "" ∧
    InstructionQwen.interpret_with_qwen "traducir al ingles"
      (some (.mkObj [("plan", .mkArr [.mkObj [("op", .str "rename_columns")],
                                      .mkObj [("op", .str "bogus")]])]))
      [.mkObj [("op", .str "translate_values")]] =
      [.mkObj [("op", .str "rename_columns")]] := by
  refine ⟨by decide, ?_⟩
  have h := (compiler_selection_policy "traducir al ingles"
    (some (.mkObj [("plan", .mkArr [.mkObj [("op", .str "rename_columns")],
                                    .mkObj [("op", .str "bogus")]])]))
    [.mkObj [("op", .str "translate_values")]] (by decide)).1
  exact (h (by decide)).trans (by decide)

/-- C4: `convert(amount, from, to, date)` is the identity when the two
codes agree (case-insensitively); otherwise it multiplies by the `to` rate
of the table fetched with `base=from` when present; otherwise, when the
first crossing does not resolve, it multiplies by the inverse of the `from`
rate of the table fetched with `base=to` (triangulation); and when that
table resolves but lacks `from`, it fails with the typed "no crossing
available" error. -/
theorem currency_convert_spec
    (fetch : String → String → Option CurrencyConverter.RateTable)
    (amount : PyNum) (from_ toC date : String) :
    (Py.lower from_ = Py.lower toC →
       CurrencyConverter.convert fetch amount from_ toC date = .ok amount) ∧
    (∀ tbl r, Py.lower from_ ≠ Py.lower toC →
       fetch (Py.lower from_) date = some tbl →
       CurrencyConverter.rateLookup tbl (Py.lower toC) = some r →
       CurrencyConverter.convert fetch amount from_ toC date =
         .ok (amount.mul r)) ∧
    (∀ tbl2 r, Py.lower from_ ≠ Py.lower toC →
       (∀ tbl, fetch (Py.lower from_) date = some tbl →
          CurrencyConverter.rateLookup tbl (Py.lower toC) = none) →
       fetch (Py.lower toC) date = some tbl2 →
       CurrencyConverter.rateLookup tbl2 (Py.lower from_) = some r →
       CurrencyConverter.convert fetch amount from_ toC date =
         .ok (amount.mul r.inv)) ∧
    (∀ tbl2, Py.lower from_ ≠ Py.lower toC →
       (∀ tbl, fetch (Py.lower from_) date = some tbl →
          CurrencyConverter.rateLookup tbl (Py.lower toC) = none) →
       fetch (Py.lower toC) date = some tbl2 →
       CurrencyConverter.rateLookup tbl2 (Py.lower from_) = none →
       CurrencyConverter.convert fetch amount from_ toC date =
         .error .noCrossing) := by
  refine ⟨?_, ?_, ?_, ?_⟩
  · intro h
    simp [CurrencyConverter.convert, h]
  · intro tbl r hne hf hr
    simp [CurrencyConverter.convert, if_neg hne, hf, hr]
  · intro tbl2 r hne h1 h2 hr
    simp only [CurrencyConverter.convert, if_neg hne]
    cases hf : fetch (Py.lower from_) date with
    | none => simp [hf, h2, hr]
    | some tbl => simp [hf, h1 tbl hf, h2, hr]
  · intro tbl2 hne h1 h2 hr
    simp only [CurrencyConverter.convert, if_neg hne]
    cases hf : fetch (Py.lower from_) date with
    | none => simp [hf, h2, hr]
    | some tbl => simp [hf, h1 tbl hf, h2, hr]

/-- Deterministic test oracle for the conversion crossings: a `eur` table
quoting `usd`, an `ars` table quoting `usd`, nothing else. -/
def testFetch : String → String → Option CurrencyConverter.RateTable :=
  fun base _ =>
    if base = "eur" then some [("usd", ⟨2, 1⟩)]
    else if base = "ars" then some [("usd", ⟨1, 1000⟩)]
    else none

/-- C4 witness: the four crossing behaviours at concrete inputs — identity,
direct rate, triangulated inverse rate, and the typed no-crossing error. -/
theorem currency_convert_spec_inst :
    CurrencyConverter.convert testFetch 100 "EUR" "EUR" "latest" = .ok 100 ∧
    CurrencyConverter.convert testFetch 100 "EUR" "USD" "latest" =
      .ok (PyNum.mul 100 ⟨2, 1⟩) ∧
    CurrencyConverter.convert testFetch 100 "USD" "ARS" "latest" =
      .ok (PyNum.mul 100 (PyNum.inv ⟨1, 1000⟩)) ∧
    CurrencyConverter.convert testFetch 100 "ARS" "EUR" "latest" =
      .error .noCrossing := by
  refine ⟨(currency_convert_spec testFetch 100 "EUR" "EUR" "latest").1 (by decide),
    (currency_convert_spec testFetch 100 "EUR" "USD" "latest").2.1
      [("usd", ⟨2, 1⟩)] ⟨2, 1⟩ (by decide) (by decide) (by decide),
    (currency_convert_spec testFetch 100 "USD" "ARS" "latest").2.2.1
      [("usd", ⟨1, 1000⟩)] ⟨1, 1000⟩ (by decide) ?_ (by decide) (by decide),
    (currency_convert_spec testFetch 100 "ARS" "EUR" "latest").2.2.2
      [("usd", ⟨2, 1⟩)] (by decide) ?_ (by decide) (by decide)⟩
  · intro tbl htb
    have hnone : testFetch (Py.lower "USD") "latest" = none := by decide
    rw [hnone] at htb
    exact Option.noConfusion htb
  · intro tbl htb
    have hsome : testFetch (Py.lower "ARS") "latest" =
        some [("usd", ⟨1, 1000⟩)] := by decide
    rw [hsome] at htb
    injection htb with h
    rw [← h]
    decide

/-! ## Rename-collision semantics: shared lemmas

Association-list facts about `JsonFields` (Python dicts have unique keys,
so the `Nodup` hypotheses below are the dict invariant), and the behaviour
of the two rename surgeries on an object holding both a matching source
key and the literal destination key. -/

namespace JsonFields

/-- A key outside the key list has no binding. -/
theorem lookup_none_of_not_mem : ∀ (fs : JsonFields) (k : String),
    k ∉ fs.keys → fs.lookup k = none
  | .nil, _, _ => rfl
  | .cons k' v tl, k, h => by
    simp only [keys, List.mem_cons, not_or] at h
    simp only [lookup]
    rw [if_neg (fun he : k' = k => h.1 he.symm)]
    exact lookup_none_of_not_mem tl k h.2

/-- A bound key appears in the key list. -/
theorem mem_keys_of_lookup : ∀ (fs : JsonFields) (k : String) (v : Json),
    fs.lookup k = some v → k ∈ fs.keys
  | .nil, _, _, h => Option.noConfusion h
  | .cons k' v' tl, k, v, h => by
    by_cases he : k' = k
    · simp [keys, he]
    · simp only [lookup, if_neg he] at h
      exact List.mem_cons_of_mem _ (mem_keys_of_lookup tl k v h)

/-- A bound key is contained (`k in d`). -/
theorem hasKey_of_lookup {fs : JsonFields} {k : String} {v : Json}
    (h : fs.lookup k = some v) : fs.hasKey k = true := by
  simp [hasKey, h]

/-- `pop` does not disturb the binding of another key. -/
theorem lookup_erase_ne : ∀ (fs : JsonFields) (k k' : String), k' ≠ k →
    (fs.erase k).lookup k' = fs.lookup k'
  | .nil, _, _, _ => rfl
  | .cons k'' v tl, k, k', h => by
    simp only [erase]
    by_cases he : k'' = k
    · rw [if_pos he]
      simp only [lookup]
      rw [if_neg (fun hh : k'' = k' => h (hh.symm.trans he))]
    · rw [if_neg he]
      simp only [lookup]
      by_cases he2 : k'' = k'
      · rw [if_pos he2, if_pos he2]
      · rw [if_neg he2, if_neg he2]
        exact lookup_erase_ne tl k k' h

/-- On a dict (unique keys), `pop` removes the binding entirely. -/
theorem lookup_erase_self : ∀ (fs : JsonFields) (k : String),
    fs.keys.Nodup → (fs.erase k).lookup k = none
  | .nil, _, _ => rfl
  | .cons k' v tl, k, h => by
    simp only [keys] at h
    have hh : k' ∉ tl.keys ∧ tl.keys.Nodup := List.nodup_cons.mp h
    simp only [erase]
    by_cases he : k' = k
    · rw [if_pos he]
      exact lookup_none_of_not_mem tl k (he ▸ hh.1)
    · rw [if_neg he]
      simp only [lookup]
      rw [if_neg he]
      exact lookup_erase_self tl k hh.2

/-- `d[k] = v` binds `k` to `v`. -/
theorem lookup_set_self : ∀ (fs : JsonFields) (k : String) (v : Json),
    (fs.set k v).lookup k = some v
  | .nil, k, v => by
    simp [set, lookup]
  | .cons k' v' tl, k, v => by
    simp only [set]
    by_cases he : k' = k
    · rw [if_pos he]
      simp only [lookup]
      rw [if_pos he]
    · rw [if_neg he]
      simp only [lookup]
      rw [if_neg he]
      exact lookup_set_self tl k v

/-- `d[k] = v` does not disturb the binding of another key. -/
theorem lookup_set_ne : ∀ (fs : JsonFields) (k k' : String) (v : Json),
    k' ≠ k → (fs.set k v).lookup k' = fs.lookup k'
  | .nil, k, k', v, h => by
    simp only [set, lookup]
    rw [if_neg (fun hh : k = k' => h hh.symm)]
  | .cons k'' v' tl, k, k', v, h => by
    simp only [set]
    by_cases he : k'' = k
    · rw [if_pos he]
      simp only [lookup]
      have hne : ¬ k'' = k' := fun hh => h (hh.symm.trans he)
      rw [if_neg hne, if_neg hne]
    · rw [if_neg he]
      simp only [lookup]
      by_cases he2 : k'' = k'
      · rw [if_pos he2, if_pos he2]
      · rw [if_neg he2, if_neg he2]
        exact lookup_set_ne tl k k' v h

/-- `pop` erases exactly the first occurrence of the key. -/
theorem keys_erase_eq : ∀ (fs : JsonFields) (k : String),
    (fs.erase k).keys = fs.keys.erase k
  | .nil, _ => rfl
  | .cons k' v tl, k => by
    by_cases he : k' = k
    · simp [erase, he, keys, List.erase_cons]
    · simp [erase, he, keys, List.erase_cons, keys_erase_eq tl k]

/-- Updating a present key in place keeps the key list. -/
theorem keys_set_of_hasKey : ∀ (fs : JsonFields) (k : String) (v : Json),
    fs.hasKey k = true → (fs.set k v).keys = fs.keys
  | .nil, k, v, h => by simp [hasKey, lookup] at h
  | .cons k' v' tl, k, v, h => by
    by_cases he : k' = k
    · simp [set, if_pos he, keys]
    · simp only [set, if_neg he, keys, List.cons.injEq, true_and]
      apply keys_set_of_hasKey
      simp only [hasKey, lookup, if_neg he] at h
      exact h

end JsonFields

/-- A key whose normalized form is absent from the normalized map matches
no entry of the map. -/
theorem normMapLookup_ne_of_none : ∀ (m : JsonFields) (nk : String)
    (o : String) (v : Json),
    ApplyPlan.normMapLookup m nk = none → JsonFields.Mem o v m →
    ApplyPlan._nkey o ≠ nk
  | .nil, _, _, _, _, hm => absurd hm id
  | .cons k w tl, nk, o, v, h, hm => by
    simp only [ApplyPlan.normMapLookup] at h
    cases htl : ApplyPlan.normMapLookup tl nk with
    | some r =>
      simp only [htl] at h
      exact Option.noConfusion h
    | none =>
      simp only [htl] at h
      rcases hm with ⟨ho, _⟩ | hm
      · subst ho
        intro hc
        rw [if_pos hc] at h
        exact Option.noConfusion h
      · exact normMapLookup_ne_of_none tl nk o v htl hm

/-- Keys the normalized map does not mention are left alone by the
executor's per-key surgery, whatever the state. -/
theorem foldlA_id : ∀ (l : List String) (m st : JsonFields),
    (∀ k ∈ l, ApplyPlan.normMapLookup m (ApplyPlan._nkey k) = none) →
    l.foldl (ApplyPlan.renameKeyStepA m) st = st
  | [], _, _, _ => rfl
  | k :: tl, m, st, h => by
    simp only [List.foldl_cons]
    have hstep : ApplyPlan.renameKeyStepA m st k = st := by
      simp [ApplyPlan.renameKeyStepA, h k (List.mem_cons_self k tl)]
    rw [hstep]
    exact foldlA_id tl m st fun k' hk' => h k' (List.mem_cons_of_mem _ hk')

/-- Keys that do not match the entry's old name are left alone by the
registry's per-key surgery, whatever the state. -/
theorem foldlB_id : ∀ (l : List String) (o d : String) (st : JsonFields),
    (∀ k ∈ l, Runtime.nkey k ≠ Runtime.nkey o) →
    l.foldl (Builtins.renameKeyStepB o d) st = st
  | [], _, _, _, _ => rfl
  | k :: tl, o, d, st, h => by
    simp only [List.foldl_cons]
    have hstep : Builtins.renameKeyStepB o d st k = st := by
      simp [Builtins.renameKeyStepB, h k (List.mem_cons_self k tl)]
    rw [hstep]
    exact foldlB_id tl o d st fun k' hk' => h k' (List.mem_cons_of_mem _ hk')

/-- The children pass of `_rename_keys_recursive` keeps the key list. -/
theorem keys_renameFieldsA : ∀ (m fs : JsonFields),
    (ApplyPlan.renameFieldsA m fs).keys = fs.keys
  | _, .nil => rfl
  | m, .cons k v tl => by
    simp only [ApplyPlan.renameFieldsA, JsonFields.keys]
    rw [keys_renameFieldsA m tl]

/-- The children pass of `_rename_keys_recursive` maps each binding's
value through the recursive rename. -/
theorem lookup_renameFieldsA : ∀ (m fs : JsonFields) (k : String),
    (ApplyPlan.renameFieldsA m fs).lookup k =
      (fs.lookup k).map (ApplyPlan._rename_keys_recursive m)
  | _, .nil, _ => rfl
  | m, .cons k' v tl, k => by
    simp only [ApplyPlan.renameFieldsA, JsonFields.lookup]
    by_cases he : k' = k
    · rw [if_pos he, if_pos he]
      rfl
    · rw [if_neg he, if_neg he]
      exact lookup_renameFieldsA m tl k

/-- The children pass of the registry rename keeps the key list. -/
theorem keys_renamePassBFields : ∀ (o d : String) (fs : JsonFields),
    (Builtins.renamePassBFields o d fs).keys = fs.keys
  | _, _, .nil => rfl
  | o, d, .cons k v tl => by
    simp only [Builtins.renamePassBFields, JsonFields.keys]
    rw [keys_renamePassBFields o d tl]

/-- The children pass of the registry rename maps each binding's value
through the whole-tree pass. -/
theorem lookup_renamePassBFields : ∀ (o d : String) (fs : JsonFields) (k : String),
    (Builtins.renamePassBFields o d fs).lookup k =
      (fs.lookup k).map (Builtins.renamePassB o d)
  | _, _, .nil, _ => rfl
  | o, d, .cons k' v tl, k => by
    simp only [Builtins.renamePassBFields, JsonFields.lookup]
    by_cases he : k' = k
    · rw [if_pos he, if_pos he]
      rfl
    · rw [if_neg he, if_neg he]
      exact lookup_renamePassBFields o d tl k

/-- A whole-tree registry pass whose old name matches none of the node's
keys only rewrites the values. -/
theorem renamePassB_nomatch (o d : String) (st : JsonFields)
    (h : ∀ k ∈ st.keys, Runtime.nkey k ≠ Runtime.nkey o) :
    Builtins.renamePassB o d (.obj st) =
      .obj (Builtins.renamePassBFields o d st) := by
  simp only [Builtins.renamePassB]
  congr 1
  unfold Builtins.renameSurgB
  apply foldlB_id
  intro k hk
  rw [keys_renamePassBFields] at hk
  exact h k hk

/-- Registry passes over entries matching none of the node's keys keep the
keys and rewrite each value by the same passes. -/
theorem renameColsGo_nomatch : ∀ (ents st : JsonFields),
    (∀ (o : String) (v : Json), JsonFields.Mem o v ents →
       ∀ k ∈ st.keys, Runtime.nkey k ≠ Runtime.nkey o) →
    ∃ gs : JsonFields, Builtins.renameColsGo ents (.obj st) = .obj gs ∧
      gs.keys = st.keys ∧
      ∀ k : String, gs.lookup k =
        (st.lookup k).map (fun v => Builtins.renameColsGo ents v)
  | .nil, st, _ =>
    ⟨st, rfl, rfl, fun k => by cases hv : st.lookup k <;> rfl⟩
  | .cons o w tl, st, h => by
    cases w with
    | str d =>
      have hpass : Builtins.renamePassB o d (.obj st) =
          .obj (Builtins.renamePassBFields o d st) :=
        renamePassB_nomatch o d st fun k hk => h o (.str d) (Or.inl ⟨rfl, rfl⟩) k hk
      obtain ⟨gs, hgo, hkeys, hlook⟩ :=
        renameColsGo_nomatch tl (Builtins.renamePassBFields o d st) (by
          intro o' v' hm' k hk
          rw [keys_renamePassBFields] at hk
          exact h o' v' (Or.inr hm') k hk)
      simp only [Builtins.renameColsGo]
      rw [hpass]
      refine ⟨gs, hgo, ?_, ?_⟩
      · rw [hkeys, keys_renamePassBFields]
      · intro k
        rw [hlook k, lookup_renamePassBFields]
        cases st.lookup k <;> rfl
    | null =>
      simp only [Builtins.renameColsGo]
      exact renameColsGo_nomatch tl st fun o' v' hm' => h o' v' (Or.inr hm')
    | bool b =>
      simp only [Builtins.renameColsGo]
      exact renameColsGo_nomatch tl st fun o' v' hm' => h o' v' (Or.inr hm')
    | num q =>
      simp only [Builtins.renameColsGo]
      exact renameColsGo_nomatch tl st fun o' v' hm' => h o' v' (Or.inr hm')
    | arr xs =>
      simp only [Builtins.renameColsGo]
      exact renameColsGo_nomatch tl st fun o' v' hm' => h o' v' (Or.inr hm')
    | obj fs2 =>
      simp only [Builtins.renameColsGo]
      exact renameColsGo_nomatch tl st fun o' v' hm' => h o' v' (Or.inr hm')

/-- The registry surgery of one matching entry on a node whose other keys
do not match: the source key is popped and the destination receives its
value (`parent[new] = parent.pop(key)`). -/
theorem renameSurgB_collision (o newK k0 : String) (st : JsonFields) (x1 : Json)
    (hnd : st.keys.Nodup)
    (hk0 : st.lookup k0 = some x1)
    (hmatch : Runtime.nkey k0 = Runtime.nkey o)
    (hothers : ∀ k ∈ st.keys, k ≠ k0 → Runtime.nkey k ≠ Runtime.nkey o) :
    Builtins.renameSurgB o newK st = (st.erase k0).set newK x1 := by
  have hmem : k0 ∈ st.keys := JsonFields.mem_keys_of_lookup st k0 x1 hk0
  obtain ⟨l1, l2, hsplit⟩ := List.append_of_mem hmem
  have hnd' : (l1 ++ k0 :: l2).Nodup := hsplit ▸ hnd
  have hk0l1 : k0 ∉ l1 := fun hc =>
    (List.nodup_append.mp hnd').2.2 hc (List.mem_cons_self k0 l2)
  have hk0l2 : k0 ∉ l2 := (List.nodup_cons.mp (List.nodup_append.mp hnd').2.1).1
  have hoth2 : ∀ k, k ∈ l1 ∨ k ∈ l2 → Runtime.nkey k ≠ Runtime.nkey o := by
    intro k hk
    apply hothers
    · rw [hsplit]
      rcases hk with h | h
      · exact List.mem_append_left _ h
      · exact List.mem_append_right _ (List.mem_cons_of_mem _ h)
    · rintro rfl
      rcases hk with h | h
      · exact hk0l1 h
      · exact hk0l2 h
  unfold Builtins.renameSurgB
  rw [hsplit, List.foldl_append]
  rw [foldlB_id l1 o newK st fun k hk => hoth2 k (Or.inl hk)]
  simp only [List.foldl_cons]
  have hstep : Builtins.renameKeyStepB o newK st k0 = (st.erase k0).set newK x1 := by
    simp [Builtins.renameKeyStepB, hmatch, hk0]
  rw [hstep]
  exact foldlB_id l2 o newK _ fun k hk => hoth2 k (Or.inr hk)

/-- Registry rename over all map entries, on an object holding a source
key `k0` (matched, moved to the literal destination `new`, overwriting it)
whose other keys match no entry: `k0` ends and stays absent and the
destination ends bound to the source's value as rewritten by the very same
passes. -/
theorem renameColsGo_collision : ∀ (ents st : JsonFields) (k0 new : String)
    (x y : Json),
    st.keys.Nodup →
    st.lookup k0 = some x →
    st.lookup new = some y →
    Runtime.nkey new ≠ Runtime.nkey k0 →
    (∀ (o : String) (v : Json), JsonFields.Mem o v ents →
       ∀ k ∈ st.keys, k ≠ k0 → Runtime.nkey k ≠ Runtime.nkey o) →
    (∀ (o : String) (v : Json), JsonFields.Mem o v ents →
       Runtime.nkey k0 = Runtime.nkey o → v = .str new) →
    ApplyPlan.normMapLookup ents (ApplyPlan._nkey k0) = some (.str new) →
    ∃ gs : JsonFields, Builtins.renameColsGo ents (.obj st) = .obj gs ∧
      gs.hasKey k0 = false ∧
      gs.lookup new = some (Builtins.renameColsGo ents x)
  | .nil, st, k0, new, x, y, _, _, _, _, _, _, hlast => Option.noConfusion hlast
  | .cons o w tl, st, k0, new, x, y, hnd, hk0, hnewy, hnk, hnonm, hdest, hlast => by
    by_cases hm0 : Runtime.nkey k0 = Runtime.nkey o
    · -- the head entry matches the source key: the move happens in this pass
      have hw : w = .str new := hdest o w (Or.inl ⟨rfl, rfl⟩) hm0
      subst hw
      have hk0new : k0 ≠ new := fun he => hnk (by rw [he])
      have hnewk0 : new ≠ k0 := fun he => hk0new he.symm
      have hkeys1 : (Builtins.renamePassBFields o new st).keys = st.keys :=
        keys_renamePassBFields o new st
      have hnd1 : (Builtins.renamePassBFields o new st).keys.Nodup := by
        rw [hkeys1]; exact hnd
      have hlk0 : (Builtins.renamePassBFields o new st).lookup k0 =
          some (Builtins.renamePassB o new x) := by
        rw [lookup_renamePassBFields, hk0]; rfl
      have hlnew : (Builtins.renamePassBFields o new st).lookup new =
          some (Builtins.renamePassB o new y) := by
        rw [lookup_renamePassBFields, hnewy]; rfl
      have hoth1 : ∀ k ∈ (Builtins.renamePassBFields o new st).keys, k ≠ k0 →
          Runtime.nkey k ≠ Runtime.nkey o := by
        rw [hkeys1]
        exact fun k hk hke => hnonm o (.str new) (Or.inl ⟨rfl, rfl⟩) k hk hke
      have hpassEq : Builtins.renamePassB o new (.obj st) =
          .obj (((Builtins.renamePassBFields o new st).erase k0).set new
            (Builtins.renamePassB o new x)) := by
        simp only [Builtins.renamePassB]
        rw [renameSurgB_collision o new k0 (Builtins.renamePassBFields o new st)
          (Builtins.renamePassB o new x) hnd1 hlk0 hm0 hoth1]
      have h2new : (((Builtins.renamePassBFields o new st).erase k0).set new
          (Builtins.renamePassB o new x)).lookup new =
          some (Builtins.renamePassB o new x) := JsonFields.lookup_set_self _ _ _
      have h2k0 : (((Builtins.renamePassBFields o new st).erase k0).set new
          (Builtins.renamePassB o new x)).lookup k0 = none := by
        rw [JsonFields.lookup_set_ne _ _ _ _ hk0new,
          JsonFields.lookup_erase_self _ _ hnd1]
      have hek : ((Builtins.renamePassBFields o new st).erase k0).hasKey new = true := by
        have hv : ((Builtins.renamePassBFields o new st).erase k0).lookup new =
            some (Builtins.renamePassB o new y) := by
          rw [JsonFields.lookup_erase_ne _ _ _ hnewk0, hlnew]
        exact JsonFields.hasKey_of_lookup hv
      have h2keys : (((Builtins.renamePassBFields o new st).erase k0).set new
          (Builtins.renamePassB o new x)).keys = st.keys.erase k0 := by
        rw [JsonFields.keys_set_of_hasKey _ _ _ hek, JsonFields.keys_erase_eq, hkeys1]
      obtain ⟨gs, hgo, hgkeys, hglook⟩ :=
        renameColsGo_nomatch tl (((Builtins.renamePassBFields o new st).erase k0).set new
          (Builtins.renamePassB o new x)) (by
            intro o' v' hm' k hk
            rw [h2keys] at hk
            have hk' : k ≠ k0 ∧ k ∈ st.keys := (List.Nodup.mem_erase_iff hnd).mp hk
            exact hnonm o' v' (Or.inr hm') k hk'.2 hk'.1)
      simp only [Builtins.renameColsGo]
      refine ⟨gs, ?_, ?_, ?_⟩
      · rw [hpassEq]
        exact hgo
      · have hl : gs.lookup k0 = none := by
          rw [hglook k0, h2k0]
          rfl
        simp [JsonFields.hasKey, hl]
      · rw [hglook new, h2new]
        rfl
    · -- the head entry does not match the source key
      have hlast' : ApplyPlan.normMapLookup tl (ApplyPlan._nkey k0) =
          some (.str new) := by
        simp only [ApplyPlan.normMapLookup] at hlast
        cases htl : ApplyPlan.normMapLookup tl (ApplyPlan._nkey k0) with
        | some r =>
          simp only [htl] at hlast
          exact hlast
        | none =>
          simp only [htl] at hlast
          rw [if_neg (fun h : ApplyPlan._nkey o = ApplyPlan._nkey k0 =>
            hm0 h.symm)] at hlast
          exact hlast
      cases w with
      | str d =>
        have hpass : Builtins.renamePassB o d (.obj st) =
            .obj (Builtins.renamePassBFields o d st) :=
          renamePassB_nomatch o d st (by
            intro k hk
            by_cases hke : k = k0
            · subst hke
              exact fun h => hm0 h
            · exact hnonm o (.str d) (Or.inl ⟨rfl, rfl⟩) k hk hke)
        obtain ⟨gs, hgo, hk0f, hlook⟩ :=
          renameColsGo_collision tl (Builtins.renamePassBFields o d st) k0 new
            (Builtins.renamePassB o d x) (Builtins.renamePassB o d y)
            (by rw [keys_renamePassBFields]; exact hnd)
            (by rw [lookup_renamePassBFields, hk0]; rfl)
            (by rw [lookup_renamePassBFields, hnewy]; rfl)
            hnk
            (by
              intro o' v' hm' k hk hke
              rw [keys_renamePassBFields] at hk
              exact hnonm o' v' (Or.inr hm') k hk hke)
            (fun o' v' hm' hh => hdest o' v' (Or.inr hm') hh)
            hlast'
        simp only [Builtins.renameColsGo]
        rw [hpass]
        exact ⟨gs, hgo, hk0f, hlook⟩
      | null =>
        simp only [Builtins.renameColsGo]
        exact renameColsGo_collision tl st k0 new x y hnd hk0 hnewy hnk
          (fun o' v' hm' => hnonm o' v' (Or.inr hm'))
          (fun o' v' hm' => hdest o' v' (Or.inr hm')) hlast'
      | bool b =>
        simp only [Builtins.renameColsGo]
        exact renameColsGo_collision tl st k0 new x y hnd hk0 hnewy hnk
          (fun o' v' hm' => hnonm o' v' (Or.inr hm'))
          (fun o' v' hm' => hdest o' v' (Or.inr hm')) hlast'
      | num q =>
        simp only [Builtins.renameColsGo]
        exact renameColsGo_collision tl st k0 new x y hnd hk0 hnewy hnk
          (fun o' v' hm' => hnonm o' v' (Or.inr hm'))
          (fun o' v' hm' => hdest o' v' (Or.inr hm')) hlast'
      | arr xs =>
        simp only [Builtins.renameColsGo]
        exact renameColsGo_collision tl st k0 new x y hnd hk0 hnewy hnk
          (fun o' v' hm' => hnonm o' v' (Or.inr hm'))
          (fun o' v' hm' => hdest o' v' (Or.inr hm')) hlast'
      | obj fs2 =>
        simp only [Builtins.renameColsGo]
        exact renameColsGo_collision tl st k0 new x y hnd hk0 hnewy hnk
          (fun o' v' hm' => hnonm o' v' (Or.inr hm'))
          (fun o' v' hm' => hdest o' v' (Or.inr hm')) hlast'

/-- Executor key surgery on an object holding a matched source key `k0`
and the literal destination (the `else: obj.pop(k)` collision branch):
the source entry is discarded and nothing else moves. -/
theorem renameLevelA_collision (m fs : JsonFields) (k0 new : String) (x y : Json)
    (hnd : fs.keys.Nodup)
    (hk0 : fs.lookup k0 = some x)
    (hnewy : fs.lookup new = some y)
    (hmap : ApplyPlan.normMapLookup m (ApplyPlan._nkey k0) = some (.str new))
    (hothers : ∀ k ∈ fs.keys, k ≠ k0 →
       ApplyPlan.normMapLookup m (ApplyPlan._nkey k) = none) :
    ApplyPlan.renameLevelA m (ApplyPlan.renameFieldsA m fs) =
      (ApplyPlan.renameFieldsA m fs).erase k0 := by
  have hmem : k0 ∈ fs.keys := JsonFields.mem_keys_of_lookup fs k0 x hk0
  obtain ⟨l1, l2, hsplit⟩ := List.append_of_mem hmem
  have hnd' : (l1 ++ k0 :: l2).Nodup := hsplit ▸ hnd
  have hk0l1 : k0 ∉ l1 := fun hc =>
    (List.nodup_append.mp hnd').2.2 hc (List.mem_cons_self k0 l2)
  have hk0l2 : k0 ∉ l2 := (List.nodup_cons.mp (List.nodup_append.mp hnd').2.1).1
  have hoth2 : ∀ k, k ∈ l1 ∨ k ∈ l2 →
      ApplyPlan.normMapLookup m (ApplyPlan._nkey k) = none := by
    intro k hk
    apply hothers
    · rw [hsplit]
      rcases hk with h | h
      · exact List.mem_append_left _ h
      · exact List.mem_append_right _ (List.mem_cons_of_mem _ h)
    · rintro rfl
      rcases hk with h | h
      · exact hk0l1 h
      · exact hk0l2 h
  have hhk : (ApplyPlan.renameFieldsA m fs).hasKey new = true := by
    apply JsonFields.hasKey_of_lookup
    rw [lookup_renameFieldsA, hnewy]
    rfl
  unfold ApplyPlan.renameLevelA
  rw [keys_renameFieldsA, hsplit, List.foldl_append]
  rw [foldlA_id l1 m _ fun k hk => hoth2 k (Or.inl hk)]
  simp only [List.foldl_cons]
  have hstep : ApplyPlan.renameKeyStepA m (ApplyPlan.renameFieldsA m fs) k0 =
      (ApplyPlan.renameFieldsA m fs).erase k0 := by
    simp [ApplyPlan.renameKeyStepA, hmap, hhk]
  rw [hstep]
  exact foldlA_id l2 m _ fun k hk => hoth2 k (Or.inr hk)

/-- A `rename_columns` step with a nonempty map dispatches to
`_rename_keys_recursive` with that map. -/
theorem execStep_rename_eq (mm : JsonFields) (doc : Json)
    (hne : mm ≠ JsonFields.nil) :
    ApplyPlan.execStep
        (.mkObj [("op", .str "rename_columns"), ("map", .obj mm)]) doc =
      .ok (some (ApplyPlan._rename_keys_recursive mm doc)) := by
  cases mm with
  | nil => exact absurd rfl hne
  | cons a b c => rfl

/-- The registry `rename_columns` with a nonempty map runs the sequential
per-entry passes. -/
theorem rename_columns_go_eq (mm : JsonFields) (doc : Json)
    (hne : mm ≠ JsonFields.nil) :
    Builtins.rename_columns doc
        (.cons "op" (.str "rename_columns") (.cons "map" (.obj mm) .nil)) =
      (Builtins.renameColsGo mm doc, true) := by
  cases mm with
  | nil => exact absurd rfl hne
  | cons a b c => rfl

/-- C10 amended: for every rename map and every document object (with
distinct keys, as Python dicts guarantee) holding a binding `k0 ↦ x` whose
key matches an old name of the map (case/diacritic-insensitively, the
normalized map sending it to the destination name `new`) together with a
binding `new ↦ y` of the literal destination key — PROVIDED the
destination key does not itself match any old name of the map, no other
key of the object matches any old name, and every map entry matching `k0`
agrees on the destination `new` — the executor's `rename_columns` removes
`k0` and discards its value, leaving the destination bound to its own
(recursively renamed) pre-existing value `y`, while the registry
`rename_columns` ends with the destination overwritten by the (recursively
renamed) source value `x`; hence the two rename implementations return
different documents whenever those two processed values differ (as any two
distinct scalar values do).  Without the proviso the executor also deletes
the destination entry, see the counterexample. -/
theorem rename_collision_semantics (m fs : JsonFields) (k0 new : String)
    (x y : Json)
    (hnd : fs.keys.Nodup)
    (hk0 : fs.lookup k0 = some x)
    (hnewy : fs.lookup new = some y)
    (hmap : ApplyPlan.normMapLookup m (ApplyPlan._nkey k0) = some (.str new))
    (hprov : ApplyPlan.normMapLookup m (ApplyPlan._nkey new) = none)
    (hothers : ∀ k ∈ fs.keys, k ≠ k0 →
       ApplyPlan.normMapLookup m (ApplyPlan._nkey k) = none)
    (hdest1 : ∀ (o : String) (v : Json), JsonFields.Mem o v m →
       Runtime.nkey k0 = Runtime.nkey o → v = .str new)
    (hdiff : ApplyPlan._rename_keys_recursive m y ≠ Builtins.renameColsGo m x) :
    ApplyPlan.execute_plan [.obj fs]
        [.mkObj [("op", .str "rename_columns"), ("map", .obj m)]] =
      .ok [.obj ((ApplyPlan.renameFieldsA m fs).erase k0)] ∧
    ((ApplyPlan.renameFieldsA m fs).erase k0).hasKey k0 = false ∧
    ((ApplyPlan.renameFieldsA m fs).erase k0).lookup new =
      some (ApplyPlan._rename_keys_recursive m y) ∧
    ∃ gs : JsonFields,
      Builtins.rename_columns (.obj fs)
          (.cons "op" (.str "rename_columns")
            (.cons "map" (.obj m) .nil)) = (.obj gs, true) ∧
      gs.hasKey k0 = false ∧
      gs.lookup new = some (Builtins.renameColsGo m x) ∧
      Json.obj ((ApplyPlan.renameFieldsA m fs).erase k0) ≠ Json.obj gs := by
  have hnk : Runtime.nkey new ≠ Runtime.nkey k0 := by
    intro h
    have h' : ApplyPlan._nkey new = ApplyPlan._nkey k0 := h
    rw [h'] at hprov
    exact Option.noConfusion (hprov.symm.trans hmap)
  have hk0new : k0 ≠ new := fun he => hnk (by rw [he])
  have hnewk0 : new ≠ k0 := fun he => hk0new he.symm
  have hne : m ≠ JsonFields.nil := by
    intro h
    rw [h] at hmap
    exact Option.noConfusion hmap
  have hren0 : ApplyPlan._rename_keys_recursive m (.obj fs) =
      .obj ((ApplyPlan.renameFieldsA m fs).erase k0) := by
    simp only [ApplyPlan._rename_keys_recursive]
    rw [renameLevelA_collision m fs k0 new x y hnd hk0 hnewy hmap hothers]
  have hvnew : ((ApplyPlan.renameFieldsA m fs).erase k0).lookup new =
      some (ApplyPlan._rename_keys_recursive m y) := by
    rw [JsonFields.lookup_erase_ne _ _ _ hnewk0, lookup_renameFieldsA, hnewy]
    rfl
  have hnonm : ∀ (o : String) (v : Json), JsonFields.Mem o v m →
      ∀ k ∈ fs.keys, k ≠ k0 → Runtime.nkey k ≠ Runtime.nkey o := by
    intro o v hm k hk hke hc
    exact normMapLookup_ne_of_none m (ApplyPlan._nkey k) o v
      (hothers k hk hke) hm hc.symm
  refine ⟨?_, ?_, hvnew, ?_⟩
  · have hstep := execStep_rename_eq m (.obj fs) hne
    rw [hren0] at hstep
    simp only [ApplyPlan.execute_plan, List.filter, Json.isObj, ApplyPlan.execGo,
      ApplyPlan.execDocSteps, hstep, Except.bind]
    rfl
  · have hl : ((ApplyPlan.renameFieldsA m fs).erase k0).lookup k0 = none := by
      apply JsonFields.lookup_erase_self
      rw [keys_renameFieldsA]
      exact hnd
    simp [JsonFields.hasKey, hl]
  · obtain ⟨gs, hgo, hk0f, hlookn⟩ :=
      renameColsGo_collision m fs k0 new x y hnd hk0 hnewy hnk hnonm hdest1 hmap
    refine ⟨gs, ?_, hk0f, hlookn, ?_⟩
    · rw [rename_columns_go_eq m (.obj fs) hne, hgo]
    · intro hc
      have he : (ApplyPlan.renameFieldsA m fs).erase k0 = gs := by
        injection hc
      have hv1 := hvnew
      rw [he, hlookn] at hv1
      exact hdiff (Option.some.inj hv1).symm

/-- C10 amended witness: map `{"Descripcion":"detalle"}` on the
three-field object `{"Descripción":"1","detalle":"2","Extra":null}` — the
executor keeps `{"detalle":"2","Extra":null}` while the registry ends with
the destination overwritten, `{"detalle":"1","Extra":null}`. -/
theorem rename_collision_semantics_inst :
    ApplyPlan.execute_plan
        [.obj (.cons "Descripción" (.str "1")
          (.cons "detalle" (.str "2") (.cons "Extra" .null .nil)))]
        [.mkObj [("op", .str "rename_columns"),
                 ("map", .obj (.cons "Descripcion" (.str "detalle") .nil))]] =
      .ok [.obj (.cons "detalle" (.str "2") (.cons "Extra" .null .nil))] ∧
    ∃ gs : JsonFields,
      Builtins.rename_columns
          (.obj (.cons "Descripción" (.str "1")
            (.cons "detalle" (.str "2") (.cons "Extra" .null .nil))))
          (.cons "op" (.str "rename_columns")
            (.cons "map" (.obj (.cons "Descripcion" (.str "detalle") .nil)) .nil)) =
        (.obj gs, true) ∧
      gs.hasKey "Descripción" = false ∧
      gs.lookup "detalle" = some (.str "1") := by
  have h := rename_collision_semantics
    (.cons "Descripcion" (.str "detalle") .nil)
    (.cons "Descripción" (.str "1")
      (.cons "detalle" (.str "2") (.cons "Extra" .null .nil)))
    "Descripción" "detalle" (.str "1") (.str "2")
    (by decide) (by decide) (by decide) (by decide) (by decide)
    (by decide)
    (by
      intro o v hm hnk
      rcases hm with ⟨_, hv⟩ | hm
      · exact hv
      · exact absurd hm id)
    (by decide)
  refine ⟨?_, ?_⟩
  · rw [h.1]
    decide
  · obtain ⟨gs, hgo, hk0f, hlookn, _⟩ := h.2.2.2
    refine ⟨gs, hgo, hk0f, ?_⟩
    rw [hlookn]
    decide
